import Mathlib

/-!
Verification of the OpenMindat_AI parameter-generation-and-validation core.

The Python code is shallowly embedded: Python values become `PyVal`
(floats are rationals; the claims only exercise exactly-representable
values), Python strings become lists of characters (`PStr`), dicts become
association lists in insertion order, and code that can raise an exception
returns `Except PStr`.  Source files embedded here:
`src/utils/rule_validator.py`, `src/utils/validation_pipeline.py`,
`src/utils/model_validator.py`, `src/utils/mindat_schema_manager.py`,
`src/servers/server_mindat.py`.
-/

set_option maxRecDepth 20000
set_option maxHeartbeats 1000000
set_option synthInstance.maxHeartbeats 400000
set_option linter.unusedVariables false

/-- Python strings, embedded as lists of characters. -/
abbrev PStr := List Char

/-- Coerce a Lean string literal to the character-list embedding. -/
def pstr (s : String) : PStr := s.toList

/-- Shallow embedding of the Python values that flow through the pipeline:
`None`, booleans, ints, floats (as rationals), strings, lists and
string-keyed dicts (association lists in insertion order). -/
inductive PyVal where
  | none
  | bool (b : Bool)
  | int (n : Int)
  | float (q : ℚ)
  | str (s : PStr)
  | list (l : List PyVal)
  | dict (d : List (PStr × PyVal))
deriving Repr

/-- A Python dict with string keys, as used for parameter records. -/
abbrev PyDict := List (PStr × PyVal)

mutual

/-- Structural equality on embedded Python values (Python `==` restricted to
the value shapes the pipeline produces). -/
def pyEq : PyVal → PyVal → Bool
  | .none, .none => true
  | .bool a, .bool b => a == b
  | .int a, .int b => a == b
  | .float a, .float b => a == b
  | .str a, .str b => a == b
  | .list a, .list b => pyEqList a b
  | .dict a, .dict b => pyEqDict a b
  | _, _ => false

/-- Elementwise equality on embedded Python lists. -/
def pyEqList : List PyVal → List PyVal → Bool
  | [], [] => true
  | a :: as, b :: bs => pyEq a b && pyEqList as bs
  | _, _ => false

/-- Entrywise equality on embedded Python dicts. -/
def pyEqDict : List (PStr × PyVal) → List (PStr × PyVal) → Bool
  | [], [] => true
  | (k, v) :: as, (k', v') :: bs => k == k' && pyEq v v' && pyEqDict as bs
  | _, _ => false

end

mutual

def pyEq_refl : (a : PyVal) → pyEq a a = true
  | .none => rfl
  | .bool b => by simp [pyEq]
  | .int n => by simp [pyEq]
  | .float q => by simp [pyEq]
  | .str s => by simp [pyEq]
  | .list l => by simpa [pyEq] using pyEqList_refl l
  | .dict d => by simpa [pyEq] using pyEqDict_refl d

def pyEqList_refl : (l : List PyVal) → pyEqList l l = true
  | [] => rfl
  | a :: t => by
      simp only [pyEqList, Bool.and_eq_true]
      exact ⟨pyEq_refl a, pyEqList_refl t⟩

def pyEqDict_refl : (d : List (PStr × PyVal)) → pyEqDict d d = true
  | [] => rfl
  | (k, v) :: t => by
      simp only [pyEqDict, Bool.and_eq_true, beq_self_eq_true, true_and]
      exact ⟨pyEq_refl v, pyEqDict_refl t⟩

end

mutual

def pyEq_sound : (a b : PyVal) → pyEq a b = true → a = b
  | .none, b, h => by cases b <;> simp_all [pyEq]
  | .bool x, b, h => by cases b <;> simp_all [pyEq]
  | .int x, b, h => by cases b <;> simp_all [pyEq]
  | .float x, b, h => by cases b <;> simp_all [pyEq]
  | .str x, b, h => by cases b <;> simp_all [pyEq]
  | .list x, b, h => by
      cases b <;> simp_all [pyEq]
      exact pyEqList_sound x _ h
  | .dict x, b, h => by
      cases b <;> simp_all [pyEq]
      exact pyEqDict_sound x _ h

def pyEqList_sound : (a b : List PyVal) → pyEqList a b = true → a = b
  | [], [], _ => rfl
  | [], _ :: _, h => by simp [pyEqList] at h
  | _ :: _, [], h => by simp [pyEqList] at h
  | x :: xs, y :: ys, h => by
      simp only [pyEqList, Bool.and_eq_true] at h
      exact by rw [pyEq_sound x y h.1, pyEqList_sound xs ys h.2]

def pyEqDict_sound : (a b : List (PStr × PyVal)) → pyEqDict a b = true → a = b
  | [], [], _ => rfl
  | [], _ :: _, h => by simp [pyEqDict] at h
  | _ :: _, [], h => by simp [pyEqDict] at h
  | (k, v) :: xs, (k', v') :: ys, h => by
      simp only [pyEqDict, Bool.and_eq_true] at h
      obtain ⟨⟨hk, hv⟩, ht⟩ := h
      rw [eq_of_beq hk, pyEq_sound v v' hv, pyEqDict_sound xs ys ht]

end

def pyEq_iff_eq (a b : PyVal) : pyEq a b = true ↔ a = b :=
  ⟨pyEq_sound a b, fun h => h ▸ pyEq_refl a⟩

instance : DecidableEq PyVal := fun a b => decidable_of_iff _ (pyEq_iff_eq a b)

/-! ## Python dict and value semantics -/

/-- Python `d.get(k)` with default `None`: value of the first entry with key
`k`, or `None` when absent (an absent key and a key stored as `None` are
indistinguishable through `get`, exactly as in the source's uses). -/
def dictGet (p : PyDict) (k : PStr) : PyVal :=
  match p.find? (fun kv => kv.1 == k) with
  | some kv => kv.2
  | Option.none => PyVal.none

/-- Python `k in d` on a dict. -/
def hasKey (p : PyDict) (k : PStr) : Bool :=
  p.any (fun kv => kv.1 == k)

/-- Python `d[k] = v`: replaces the value of an existing key in place,
otherwise appends the new entry at the end. -/
def dictSet (p : PyDict) (k : PStr) (v : PyVal) : PyDict :=
  match p with
  | [] => [(k, v)]
  | kv :: t => if kv.1 == k then (k, v) :: t else kv :: dictSet t k v

/-- Python `d.keys()` in insertion order. -/
def keysOf (p : PyDict) : List PStr := p.map Prod.fst

/-- Python truthiness of an embedded value. -/
def truthy : PyVal → Bool
  | .none => false
  | .bool b => b
  | .int n => n != 0
  | .float q => q != 0
  | .str s => !s.isEmpty
  | .list l => !l.isEmpty
  | .dict d => !d.isEmpty

/-- Numeric view for Python comparisons: `bool`, `int` and `float` are
mutually comparable (a `bool` is `0` or `1`); other values are not numbers. -/
def toNum : PyVal → Option ℚ
  | .bool b => some (if b then 1 else 0)
  | .int n => some (n : ℚ)
  | .float q => some q
  | _ => Option.none

/-- Python `a <= v` for a numeric literal `a`; raises `TypeError` when `v`
is not a number. -/
def pyLeNumL (a : ℚ) (v : PyVal) : Except PStr Bool :=
  match toNum v with
  | some q => .ok (decide (a ≤ q))
  | Option.none => .error (pstr "TypeError: '<=' not supported")

/-- Python `v <= b` for a numeric literal `b`; raises `TypeError` when `v`
is not a number. -/
def pyLeNumR (v : PyVal) (b : ℚ) : Except PStr Bool :=
  match toNum v with
  | some q => .ok (decide (q ≤ b))
  | Option.none => .error (pstr "TypeError: '<=' not supported")

/-- Python's chained comparison `a <= v <= b`: the first comparison is
evaluated first and the second only if the first held. -/
def pyChainBetween (a : ℚ) (v : PyVal) (b : ℚ) : Except PStr Bool := do
  let c1 ← pyLeNumL a v
  if c1 then pyLeNumR v b else pure false

/-- Python `v > w` on two values that must both be numbers here. -/
def pyGtNum (v w : PyVal) : Except PStr Bool :=
  match toNum v, toNum w with
  | some q1, some q2 => .ok (decide (q2 < q1))
  | _, _ => .error (pstr "TypeError: '>' not supported")

/-- Python iteration `for x in v`: lists yield their elements, strings their
characters (as 1-character strings), dicts their keys; other values raise
`TypeError`. -/
def pyIter : PyVal → Except PStr (List PyVal)
  | .list l => .ok l
  | .str s => .ok (s.map (fun c => PyVal.str [c]))
  | .dict d => .ok (d.map (fun kv => PyVal.str kv.1))
  | _ => .error (pstr "TypeError: object is not iterable")

/-- Python `set(...)` over already-produced elements: raises `TypeError` on
unhashable elements (lists, dicts), otherwise deduplicates.  The embedding
represents the set as a duplicate-free list; set iteration order is never
observable in the embedded code. -/
def pySet (l : List PyVal) : Except PStr (List PyVal) :=
  if l.all (fun v => match v with | .list _ => false | .dict _ => false | _ => true) then
    .ok l.dedup
  else
    .error (pstr "TypeError: unhashable type")

/-! ## Python string helpers -/

/-- Python `s.lower()` (the element vocabulary is ASCII-only). -/
def plower (s : PStr) : PStr := s.map Char.toLower

/-- Python `s.strip()`: drop leading and trailing whitespace. -/
def pstrip (s : PStr) : PStr :=
  ((s.dropWhile Char.isWhitespace).reverse.dropWhile Char.isWhitespace).reverse

/-- Python `s.split(',')`: always returns one more part than there are
commas; splitting the empty string yields `[""]`. -/
def splitComma : PStr → List PStr
  | [] => [[]]
  | c :: rest =>
    if c = ',' then [] :: splitComma rest
    else
      match splitComma rest with
      | h :: t => (c :: h) :: t
      | [] => [[c]]

/-- Python `','.join(parts)`. -/
def joinComma : List PStr → PStr
  | [] => []
  | [x] => x
  | x :: y :: t => x ++ ',' :: joinComma (y :: t)

/-- Python `s.split` attribute access: raises `AttributeError` on non-strings. -/
def asPyStr : PyVal → Except PStr PStr
  | .str s => .ok s
  | _ => .error (pstr "AttributeError: object has no attribute 'split'")

/-! ## RuleValidator (src/utils/rule_validator.py)

Messages interpolating a Python `set` (whose rendering order is
unspecified) are embedded as their static prefix; no claim depends on
message text. -/

/-- The ~90-symbol element vocabulary returned by
`RuleValidator._load_periodic_table`. -/
def valid_elements_list : List PStr :=
  [pstr "H", pstr "Li", pstr "Be", pstr "B", pstr "C", pstr "N", pstr "O", pstr "F",
   pstr "Na", pstr "Mg", pstr "Al", pstr "Si", pstr "P", pstr "S", pstr "Cl", pstr "K",
   pstr "Ca", pstr "Sc", pstr "Ti", pstr "V", pstr "Cr", pstr "Mn", pstr "Fe", pstr "Co",
   pstr "Ni", pstr "Cu", pstr "Zn", pstr "Ga", pstr "Ge", pstr "As", pstr "Se", pstr "Br",
   pstr "Rb", pstr "Sr", pstr "Y", pstr "Zr", pstr "Nb", pstr "Mo", pstr "Ru", pstr "Rh",
   pstr "Pd", pstr "Ag", pstr "Cd", pstr "In", pstr "Sn", pstr "Sb", pstr "Te", pstr "I",
   pstr "Cs", pstr "Ba", pstr "La", pstr "Ce", pstr "Pr", pstr "Nd", pstr "Sm", pstr "Eu",
   pstr "Gd", pstr "Tb", pstr "Dy", pstr "Ho", pstr "Er", pstr "Tm", pstr "Yb", pstr "Lu",
   pstr "Hf", pstr "Ta", pstr "W", pstr "Re", pstr "Os", pstr "Ir", pstr "Pt", pstr "Au",
   pstr "Hg", pstr "Tl", pstr "Pb", pstr "Bi", pstr "Ra", pstr "Th", pstr "U", pstr "[]",
   pstr "OH", pstr "H2O", pstr "H3O", pstr "BO3", pstr "NH4", pstr "NH2", pstr "NO3",
   pstr "CO3", pstr "PO4", pstr "SO4", pstr "SO3", pstr "AsO4", pstr "AsO3", pstr "VO4",
   pstr "CrO4", pstr "SeO4", pstr "SeO3", pstr "MoO4", pstr "SnOH", pstr "SbO4",
   pstr "SbO3", pstr "TeO4", pstr "TeO3", pstr "IO3", pstr "WO4", pstr "UO2",
   pstr "SiO4", pstr "SiO3", pstr "Si3O9", pstr "CH3COO", pstr "HCOO", pstr "C2O4"]

/-- Embeds `RuleValidator.valid_crystal_systems`. -/
def valid_crystal_systems_list : List PStr :=
  [pstr "Amorphous", pstr "Hexagonal", pstr "Icosahedral", pstr "Isometric",
   pstr "Monoclinic", pstr "Orthorhombic", pstr "Tetragonal", pstr "Triclinic",
   pstr "Trigonal"]

/-- The `valid_fields` the `ValidationPipeline` constructs the validator with:
the declared fields of `MindatQueryDict`. -/
def valid_fields_list : List PStr :=
  [pstr "ima", pstr "hardness_min", pstr "hardness_max", pstr "crystal_system",
   pstr "el_inc", pstr "el_exc"]

/-- Embeds `RuleValidator.search_fields`. -/
def search_fields_list : List PStr :=
  [pstr "ima", pstr "hardness_min", pstr "hardness_max", pstr "crystal_system",
   pstr "el_inc", pstr "el_exc"]

/-- Embeds `RuleValidator._parse_elements`: split on commas, strip whitespace, drop
empty tokens, form a set (duplicate-free list). -/
def parse_elements (s : PStr) : List PStr :=
  (((splitComma s).map pstrip).filter (fun t => !t.isEmpty)).dedup

/-- The case-insensitive lookup built in `RuleValidator._correct_element_case`
(`{elem.lower(): elem for elem in self.valid_elements}`); the vocabulary's
lowercased symbols are pairwise distinct, so looking up the first match in the
list is that dict lookup. -/
def element_lookup_find (t : PStr) : Option PStr :=
  valid_elements_list.find? (fun e => plower e == plower t)

/-- The per-token correction inside `_correct_element_case`: canonical symbol
when the lowercased token is in the vocabulary, the token itself otherwise. -/
def correct_tok (t : PStr) : PStr := (element_lookup_find t).getD t

/-- Embeds `RuleValidator._correct_element_case`: parse, correct case per token,
deduplicate, sort and rejoin with commas. -/
def correct_element_case (s : PStr) : PStr :=
  joinComma (List.insertionSort (· ≤ ·) (((parse_elements s).map correct_tok).dedup))

/-- Embeds `RuleValidator.rule_schema_validate` (with the pipeline's non-empty
`valid_fields`). -/
def rule_schema_validate (params : PyDict) : Except PStr (Bool × Option PStr) :=
  let unexpected := (keysOf params).filter (fun k => !valid_fields_list.contains k)
  if !unexpected.isEmpty then
    .ok (false, some (pstr "Unexpected fields: "))
  else
    .ok (true, Option.none)

/-- Embeds `RuleValidator.rule_hardness_range_validate`. -/
def rule_hardness_range_validate (params : PyDict) : Except PStr (Bool × Option PStr) := do
  let hardness_min := dictGet params (pstr "hardness_min")
  let hardness_max := dictGet params (pstr "hardness_max")
  if hardness_min ≠ PyVal.none then
    if !(← pyChainBetween 1 hardness_min 10) then
      return (false, some (pstr "hardness_min must be between 1 and 10"))
  if hardness_max ≠ PyVal.none then
    if !(← pyChainBetween 1 hardness_max 10) then
      return (false, some (pstr "hardness_max must be between 1 and 10"))
  if hardness_min ≠ PyVal.none ∧ hardness_max ≠ PyVal.none then
    if ← pyGtNum hardness_min hardness_max then
      return (false, some (pstr "hardness_min cannot exceed hardness_max"))
  return (true, Option.none)

/-- Embeds `RuleValidator.rule_crystal_system_validate`. -/
def rule_crystal_system_validate (params : PyDict) : Except PStr (Bool × Option PStr) := do
  let crystal_system := dictGet params (pstr "crystal_system")
  if crystal_system = PyVal.none then
    return (true, Option.none)
  let elems ← pyIter crystal_system
  let selems ← pySet elems
  let invalid := selems.filter (fun v =>
    match v with
    | .str s => !valid_crystal_systems_list.contains s
    | _ => true)
  if !invalid.isEmpty then
    return (false, some (pstr "Invalid crystal systems: "))
  return (true, Option.none)

/-- Embeds `RuleValidator.rule_chemical_element_validate`. -/
def rule_chemical_element_validate (params : PyDict) : Except PStr (Bool × Option PStr) := do
  let el_inc := dictGet params (pstr "el_inc")
  let el_exc := dictGet params (pstr "el_exc")
  if truthy el_inc then
    let s ← asPyStr el_inc
    if (parse_elements s).any
        (fun t => !(valid_elements_list.map plower).contains (plower t)) then
      return (false, some (pstr "Invalid elements in el_inc: "))
  if truthy el_exc then
    let s ← asPyStr el_exc
    if (parse_elements s).any
        (fun t => !(valid_elements_list.map plower).contains (plower t)) then
      return (false, some (pstr "Invalid elements in el_exc: "))
  return (true, Option.none)

/-- Embeds `RuleValidator.rule_element_conflict_validate`. -/
def rule_element_conflict_validate (params : PyDict) : Except PStr (Bool × Option PStr) := do
  let el_inc := dictGet params (pstr "el_inc")
  let el_exc := dictGet params (pstr "el_exc")
  if !truthy el_inc || !truthy el_exc then
    return (true, Option.none)
  let s1 ← asPyStr el_inc
  let s2 ← asPyStr el_exc
  let conflicts := (parse_elements s1).filter (fun t => parse_elements s2 |>.contains t)
  if !conflicts.isEmpty then
    return (false, some (pstr "Elements cannot be both included and excluded: "))
  return (true, Option.none)

/-- Embeds `RuleValidator.rule_completeness_validate`. -/
def rule_completeness_validate (params : PyDict) : Except PStr (Bool × Option PStr) :=
  if search_fields_list.any (fun f => dictGet params f ≠ PyVal.none) then
    .ok (true, Option.none)
  else
    .ok (false, some (pstr "At least one search criterion must be specified"))

/-- One iteration of the `apply_corrections` loop body for one field. -/
def correct_field (p : PyDict) (f : PStr) : Except PStr PyDict := do
  if truthy (dictGet p f) then
    let s ← asPyStr (dictGet p f)
    return dictSet p f (.str (correct_element_case s))
  else
    return p

/-- Embeds `RuleValidator.apply_corrections`: copy the dict, then correct
`el_inc` and `el_exc` in turn when truthy. -/
def apply_corrections (p : PyDict) : Except PStr PyDict := do
  let p1 ← correct_field p (pstr "el_inc")
  correct_field p1 (pstr "el_exc")

/-- Structured result of rule validation (`status`, and the keys present in
the returned dict: `issues` only when invalid, `corrected_params` only when
valid). -/
structure VResult where
  status : PStr
  issues : Option (List (PStr × Option PStr))
  corrected_params : Option PyDict
deriving Repr, DecidableEq

deriving instance DecidableEq for Except

/-- Embeds `RuleValidator.run_validation`: run the six registered validators in
registration order (an exception in a validator propagates, as in the Python
`for` loop), collect an issue entry keyed by validator name for every failing
check, and on full success attach the corrected parameters. -/
def run_validation (params : PyDict) : Except PStr VResult := do
  let r1 ← rule_schema_validate params
  let r2 ← rule_hardness_range_validate params
  let r3 ← rule_crystal_system_validate params
  let r4 ← rule_chemical_element_validate params
  let r5 ← rule_element_conflict_validate params
  let r6 ← rule_completeness_validate params
  let checks := [(pstr "rule_schema", r1), (pstr "rule_hardness_range", r2),
                 (pstr "rule_crystal_system", r3), (pstr "rule_chemical_element", r4),
                 (pstr "rule_element_conflict", r5), (pstr "rule_completeness", r6)]
  let issues := (checks.filter (fun c => !c.2.1)).map (fun c => (c.1, c.2.2))
  if issues.isEmpty then
    let corrected ← apply_corrections params
    return ⟨pstr "valid", Option.none, some corrected⟩
  else
    return ⟨pstr "invalid", some issues, Option.none⟩

/-! ## Consensus generator (src/servers/server_mindat.py) -/

instance : BEq PyVal := ⟨pyEq⟩

instance : LawfulBEq PyVal where
  eq_of_beq h := pyEq_sound _ _ h
  rfl := pyEq_refl _

/-- Key order used by `json.dumps(..., sort_keys=True)`: lexicographic string
comparison of the keys. -/
def keyLe (a b : PStr × PyVal) : Prop := a.1 ≤ b.1

instance : DecidableRel keyLe := fun a b => (inferInstance : Decidable (a.1 ≤ b.1))

mutual

/-- The canonical form a value takes under
`json.loads(json.dumps(v, sort_keys=True))`: dict entries are recursively
sorted by key; **list elements keep their order**.  Two values produce the
same `sort_keys=True` JSON string iff their canonical forms are equal. -/
def canonValue : PyVal → PyVal
  | .dict d => .dict (List.insertionSort keyLe (canonDict d))
  | .list l => .list (canonList l)
  | v => v

/-- Canonical forms of a list's elements, in order. -/
def canonList : List PyVal → List PyVal
  | [] => []
  | v :: t => canonValue v :: canonList t

/-- Canonical forms of a dict's values, keys untouched (sorting happens in
`canonValue`). -/
def canonDict : List (PStr × PyVal) → List (PStr × PyVal)
  | [] => []
  | (k, v) :: t => (k, canonValue v) :: canonDict t

end

/-- Embeds `Counter(xs).most_common(1)[0]`: the element with the highest count,
earliest-encountered winning ties, together with its count. -/
def mostCommon (l : List PyVal) : Option (PyVal × Nat) :=
  match l with
  | [] => Option.none
  | x :: _ =>
      some (l.foldl
        (fun best a => if l.count a > best.2 then (a, l.count a) else best)
        (x, l.count x))

/-- Embeds `ParamGeneration._get_consensus`: drop error results, require at least two
valid ones, serialize each with `sort_keys=True` (embedded as `canonValue`),
and return the parsed most common form when it occurs at least twice
(`json.loads` of the winning string is exactly its canonical form). -/
def get_consensus (results : List PyDict) : Option PyVal :=
  if results.isEmpty then Option.none
  else
    let valid_results := results.filter (fun r => !hasKey r (pstr "error message"))
    if valid_results.length < 2 then Option.none
    else
      let canon := valid_results.map (fun r => canonValue (.dict r))
      match mostCommon canon with
      | some (c, n) => if n ≥ 2 then some c else Option.none
      | Option.none => Option.none

/-- The terminal failure message of `ParamGeneration.generate_params`. -/
def consensus_failed_message : PStr :=
  pstr "Parameter generation failed to reach consensus after 3 attempts. Results were inconsistent. Please select one of the candidates or refine your query."

/-- The `{"consensus_failed": ..., "message": ..., "candidates": ...}` bundle
returned after three rounds without consensus. -/
def consensus_failed_bundle (valid_candidates : List PyDict) : PyDict :=
  [(pstr "consensus_failed", .bool true),
   (pstr "message", .str consensus_failed_message),
   (pstr "candidates", .list (valid_candidates.map PyVal.dict))]

/-- Embeds `ParamGeneration.generate_params` (line 154) invokes
`self.validation_pipeline._get_rule_validated_param(consensus)`, but
`ValidationPipeline` (src/utils/validation_pipeline.py) defines only
`__init__` and `validate`, and no `_get_rule_validated_param` is defined
anywhere in the repository, so the attribute lookup raises `AttributeError`;
this definition embeds that raise. -/
def pipeline_get_rule_validated_param (_consensus : PyVal) : Except PStr PyVal :=
  .error (pstr "AttributeError: 'ValidationPipeline' object has no attribute '_get_rule_validated_param'")

/-- The `num_generations = 3` path of `ParamGeneration.generate_params`:
each entry of `rounds` holds the three task results of one consensus attempt
(the structured-generation oracle is external input); the loop takes the
first round that reaches consensus and otherwise, after the last round,
returns the failure bundle built from that round's valid candidates. -/
def generate_params_rounds : List (List PyDict) → Except PStr (List PyVal)
  | [] => .ok []
  | [results] =>
      match get_consensus results with
      | some c => do
          let v ← pipeline_get_rule_validated_param c
          return [v]
      | Option.none =>
          .ok [.dict (consensus_failed_bundle
                (results.filter (fun r => !hasKey r (pstr "error message"))))]
  | results :: rest =>
      match get_consensus results with
      | some c => do
          let v ← pipeline_get_rule_validated_param c
          return [v]
      | Option.none => generate_params_rounds rest

/-! ## ValidationPipeline (src/utils/validation_pipeline.py) -/

/-- Embeds `ValidationPipeline.validate`.  `sem` is the semantic layer
(`self.model_validator.run_validation`, an LLM-backed oracle) as a function of
the corrected params, query and endpoint; the pipeline always holds a
constructed (truthy) `ModelValidator`, so the `if self.model_validator and
original_query:` gate reduces to the query being non-empty. -/
def pipeline_validate (sem : PyDict → PStr → PStr → Except PStr VResult)
    (params : PyDict) (original_query : PStr) (endpoint : PStr) :
    Except PStr VResult := do
  let rule_result ← run_validation params
  if rule_result.status ≠ pstr "valid" then
    return rule_result
  let corrected_params := rule_result.corrected_params.getD params
  if !original_query.isEmpty then
    let model_result ← sem corrected_params original_query endpoint
    if model_result.corrected_params = Option.none then
      return { model_result with corrected_params := some corrected_params }
    else
      return model_result
  return rule_result

/-! ## ModelValidator (src/utils/model_validator.py) -/

/-- The three statuses admitted by the pydantic
`IntentHallucinationValidationOutput.status` literal. -/
inductive SemStatus where
  | valid
  | invalid
  | uncertain
deriving Repr, DecidableEq

/-- Structured oracle output (`IntentHallucinationValidationOutput`). -/
structure SemOutput where
  status : SemStatus
  issues : Option (List (PStr × PStr))
deriving Repr, DecidableEq

/-- A `{name, description, schema}` parameter-documentation record as built by
the schema manager; fields hold arbitrary embedded values, as in the source. -/
structure ParamDoc where
  name : PyVal
  description : PyVal
  schema : PyVal
deriving Repr, DecidableEq

/-- One structured issue `{value, reason, api_doc}`; `api_doc = none` embeds
the empty-dict default `api_docs.get(param_name, {})`. -/
structure IssueDetail where
  value : PyVal
  reason : PStr
  api_doc : Option ParamDoc
deriving Repr, DecidableEq

/-- Embeds `ModelValidator.model_intent_hallucination_validate`: the oracle call
(`llm.with_structured_output(...).ainvoke(prompt)`) is the `oracle` argument —
either a structured response or a raised exception; the prompt construction is
pure string formatting and not modelled. -/
def model_intent_hallucination_validate (params : PyDict) (original_query : PStr)
    (api_docs : List (PStr × ParamDoc)) (oracle : Except PStr SemOutput) :
    SemStatus × Option (List (PStr × IssueDetail)) :=
  match oracle with
  | .error e =>
      (SemStatus.invalid,
       some [(pstr "_error", ⟨PyVal.none, pstr "Validation error: " ++ e, Option.none⟩)])
  | .ok response =>
      if response.status = SemStatus.valid then
        (SemStatus.valid, Option.none)
      else
        (response.status,
         some ((response.issues.getD []).map (fun ni =>
           if ni.1 = pstr "_error" then
             (ni.1, ⟨PyVal.none, ni.2, Option.none⟩)
           else
             (ni.1, ⟨dictGet params ni.1, ni.2,
                     (api_docs.find? (fun kv => kv.1 == ni.1)).map Prod.snd⟩))))

/-! ## Schema manager (src/utils/mindat_schema_manager.py) -/

/-- Process state of `MindatAPISchemaManager`: the parsed schema document and
the `/v1/geomaterials/` entry of `endpoints_cache`. -/
structure SMState where
  schema_data : Option PyVal
  cache_geo : Option (List (PyVal × ParamDoc))
deriving Repr, DecidableEq

/-- The state right after `MindatAPISchemaManager.__init__`. -/
def sm_init : SMState := ⟨Option.none, Option.none⟩

/-- Embeds `MindatAPISchemaManager.load_schema` (with `download_schema` folded in):
`fetch` is the outcome of reading/downloading and YAML-parsing the remote
schema document — `none` when any of that fails (the method catches the error,
prints, and returns `False`), `some v` for a parsed document `v`. -/
def load_schema (fetch : Option PyVal) (st : SMState) : Bool × SMState :=
  match fetch with
  | Option.none => (false, st)
  | some v => (true, { st with schema_data := some v })

/-- Python `obj.get(key, default)`: raises `AttributeError` when `obj` is not
a dict. -/
def pyGetD (v : PyVal) (k : PStr) (dflt : PyVal) : Except PStr PyVal :=
  match v with
  | .dict d =>
      .ok (match d.find? (fun kv => kv.1 == k) with
           | some kv => kv.2
           | Option.none => dflt)
  | _ => .error (pstr "AttributeError: object has no attribute 'get'")

/-- Python `obj.items()`: raises `AttributeError` when `obj` is not a dict. -/
def pyItems : PyVal → Except PStr (List (PStr × PyVal))
  | .dict d => .ok d
  | _ => .error (pstr "AttributeError: object has no attribute 'items'")

/-- Dict assignment keyed by an arbitrary embedded value
(`endpoint_docs[param_name] = ...`). -/
def pyDocSet (d : List (PyVal × ParamDoc)) (k : PyVal) (v : ParamDoc) :
    List (PyVal × ParamDoc) :=
  match d with
  | [] => [(k, v)]
  | kv :: t => if kv.1 = k then (k, v) :: t else kv :: pyDocSet t k v

/-- The nested `items` filtering step of `get_geomaterials_endpoint`:
when `filtered_schema` has a dict under `'items'`, drop that dict's `'type'`
key in place. -/
def filter_type_items (fs : List (PStr × PyVal)) : List (PStr × PyVal) :=
  match (fs.find? (fun kv => kv.1 == pstr "items")).map Prod.snd with
  | some (.dict items) =>
      dictSet fs (pstr "items") (.dict (items.filter (fun kv => kv.1 ≠ pstr "type")))
  | _ => fs

/-- One iteration of the `for param in parameters:` loop of
`get_geomaterials_endpoint`: skip parameters with a falsy name, strip `'type'`
keys from the schema (and from a nested `'items'` dict), and store the
`{name, description, schema}` record under the parameter name. -/
def extract_geo_step (docs : List (PyVal × ParamDoc)) (param : PyVal) :
    Except PStr (List (PyVal × ParamDoc)) := do
  let param_name ← pyGetD param (pstr "name") PyVal.none
  if !truthy param_name then
    return docs
  let schema ← pyGetD param (pstr "schema") (.dict [])
  let schema_entries ← pyItems schema
  let filtered := filter_type_items (schema_entries.filter (fun kv => kv.1 ≠ pstr "type"))
  let description ← pyGetD param (pstr "description") (.str [])
  return pyDocSet docs param_name ⟨param_name, description, .dict filtered⟩

/-- The `try` body of `MindatAPISchemaManager.get_geomaterials_endpoint`:
navigate `paths → '/v1/geomaterials/' → 'get' → 'parameters'`, then fold
`extract_geo_step` over the parameter entries. -/
def extract_geo_params (schema_data : PyVal) : Except PStr (List (PyVal × ParamDoc)) := do
  let paths ← pyGetD schema_data (pstr "paths") (.dict [])
  let endpoint ← pyGetD paths (pstr "/v1/geomaterials/") (.dict [])
  let get_method ← pyGetD endpoint (pstr "get") (.dict [])
  let parameters ← pyGetD get_method (pstr "parameters") (.list [])
  let params_list ← pyIter parameters
  params_list.foldlM extract_geo_step []

/-- The endpoint path constant `'/v1/geomaterials/'`. -/
def geo_endpoint_str : PStr := pstr "/v1/geomaterials/"

/-- Embeds `MindatAPISchemaManager.get_geomaterials_endpoint`: cache hit returns the
cache; otherwise load the schema if absent (returning `{}` on load failure),
extract the parameter docs (returning `{}` if the `try` body raises), and
cache the successful result. -/
def get_geomaterials_endpoint (fetch : Option PyVal) (st : SMState) :
    (List (PyVal × ParamDoc)) × SMState :=
  match st.cache_geo with
  | some docs => (docs, st)
  | Option.none =>
    let loaded :=
      match st.schema_data with
      | some v => (some v, st)
      | Option.none =>
        match load_schema fetch st with
        | (true, st') => (st'.schema_data, st')
        | (false, st') => (Option.none, st')
    match loaded with
    | (Option.none, st1) => ([], st1)
    | (some v, st1) =>
      match extract_geo_params v with
      | .ok docs => (docs, { st1 with cache_geo := some docs })
      | .error _ => ([], st1)

/-- Embeds `MindatAPISchemaManager.get_params_info`: restrict the endpoint docs to
the requested names (other endpoints have no docs). -/
def get_params_info (fetch : Option PyVal) (st : SMState)
    (param_names : List PStr) (endpoint : PStr) :
    (List (PStr × ParamDoc)) × SMState :=
  let docs_st :=
    if endpoint = geo_endpoint_str then get_geomaterials_endpoint fetch st
    else ([], st)
  (param_names.filterMap (fun n =>
      (docs_st.1.find? (fun kv => kv.1 == PyVal.str n)).map (fun kv => (n, kv.2))),
   docs_st.2)

/-! ## Spec-side definitions used to state claims -/

/-- Constructor rank, used only to give `pyValLeB` a total order across
different value shapes. -/
def pyTag : PyVal → Nat
  | .none => 0
  | .bool _ => 1
  | .int _ => 2
  | .float _ => 3
  | .str _ => 4
  | .list _ => 5
  | .dict _ => 6

mutual

/-- A total comparison on embedded values, used by the spec-side
canonicalization to sort multi-valued fields. -/
def pyValLeB : PyVal → PyVal → Bool
  | .bool a, .bool b => !a || b
  | .int a, .int b => decide (a ≤ b)
  | .float a, .float b => decide (a ≤ b)
  | .str a, .str b => decide (a ≤ b)
  | .list a, .list b => pyValLeListB a b
  | .dict a, .dict b => pyValLeDictB a b
  | x, y => decide (pyTag x ≤ pyTag y)

/-- Lexicographic comparison of value lists. -/
def pyValLeListB : List PyVal → List PyVal → Bool
  | [], _ => true
  | _ :: _, [] => false
  | a :: as, b :: bs => if a = b then pyValLeListB as bs else pyValLeB a b

/-- Lexicographic comparison of dict entry lists. -/
def pyValLeDictB : List (PStr × PyVal) → List (PStr × PyVal) → Bool
  | [], _ => true
  | _ :: _, [] => false
  | (k, v) :: as, (k', v') :: bs =>
      if k = k' then (if v = v' then pyValLeDictB as bs else pyValLeB v v')
      else decide (k ≤ k')

end

mutual

/-- Modelled from the spec's consensus-rule words (deliberately NOT from the
source, for comparison against `canonValue`): canonicalize with stable field
ordering AND sorted multi-valued fields — dict entries sorted by key and list
elements sorted as well. -/
def specCanonSorted : PyVal → PyVal
  | .dict d => .dict (List.insertionSort keyLe (specCanonSortedDict d))
  | .list l =>
      .list (List.insertionSort (fun a b => pyValLeB a b = true) (specCanonSortedList l))
  | v => v

/-- Spec-side canonical forms of a list's elements (sorted in `specCanonSorted`). -/
def specCanonSortedList : List PyVal → List PyVal
  | [] => []
  | v :: t => specCanonSorted v :: specCanonSortedList t

/-- Spec-side canonical forms of a dict's values. -/
def specCanonSortedDict : List (PStr × PyVal) → List (PStr × PyVal)
  | [] => []
  | (k, v) :: t => (k, specCanonSorted v) :: specCanonSortedDict t

end

/-- The accumulator of `Counter.most_common(1)`'s maximum search, named so the
fold can be reasoned about: `full` is the counted list. -/
def bestFold (full l : List PyVal) (b : PyVal × Nat) : PyVal × Nat :=
  l.foldl (fun best a => if full.count a > best.2 then (a, full.count a) else best) b

/-- Well-typedness of one field per the `MindatQueryDict` declaration: `ima`
an optional bool, hardness bounds optional floats, `crystal_system` an
optional list of strings, `el_inc`/`el_exc` optional strings; keys outside
the declared fields are unconstrained. -/
def wtField (k : PStr) (v : PyVal) : Bool :=
  if k = pstr "ima" then
    match v with | .none => true | .bool _ => true | _ => false
  else if k = pstr "hardness_min" || k = pstr "hardness_max" then
    match v with | .none => true | .float _ => true | _ => false
  else if k = pstr "crystal_system" then
    match v with
    | .none => true
    | .list l => l.all (fun x => match x with | .str _ => true | _ => false)
    | _ => false
  else if k = pstr "el_inc" || k = pstr "el_exc" then
    match v with | .none => true | .str _ => true | _ => false
  else
    true

/-- A candidate parameter dict is well-typed when every entry conforms to the
declared field types (the shape every pydantic-produced candidate has). -/
def WT (p : PyDict) : Bool := p.all (fun kv => wtField kv.1 kv.2)

/-- Spec-side reading of check (1): every supplied key belongs to the declared
field set. -/
def schemaOkB (p : PyDict) : Bool :=
  (keysOf p).all (fun k => valid_fields_list.contains k)

/-- Spec-side reading of check (2): each hardness bound that is present (as a
number) lies in `[1, 10]`, and `min ≤ max` when both are present. -/
def hardnessOkB (p : PyDict) : Bool :=
  (match toNum (dictGet p (pstr "hardness_min")) with
   | some q => decide (1 ≤ q ∧ q ≤ 10)
   | Option.none => true)
  && (match toNum (dictGet p (pstr "hardness_max")) with
      | some q => decide (1 ≤ q ∧ q ≤ 10)
      | Option.none => true)
  && (match toNum (dictGet p (pstr "hardness_min")),
            toNum (dictGet p (pstr "hardness_max")) with
      | some q1, some q2 => decide (q1 ≤ q2)
      | _, _ => true)

/-- Spec-side reading of check (3): the supplied crystal systems are a subset
of the 9-value enum. -/
def crystalOkB (p : PyDict) : Bool :=
  match dictGet p (pstr "crystal_system") with
  | .list l => l.all (fun v =>
      match v with
      | .str s => valid_crystal_systems_list.contains s
      | _ => false)
  | _ => true

/-- Every comma-separated token of a string field lies in the symbol
vocabulary, case-insensitively (vacuous for non-strings and empty strings). -/
def tokensOkB (v : PyVal) : Bool :=
  match v with
  | .str s => (parse_elements s).all
      (fun t => (valid_elements_list.map plower).contains (plower t))
  | _ => true

/-- Spec-side reading of check (4), over both element fields. -/
def elementsOkB (p : PyDict) : Bool :=
  tokensOkB (dictGet p (pstr "el_inc")) && tokensOkB (dictGet p (pstr "el_exc"))

/-- Spec-side reading of check (5): the (case-sensitive, as coded) inclusion
and exclusion token sets are disjoint. -/
def conflictOkB (p : PyDict) : Bool :=
  match dictGet p (pstr "el_inc"), dictGet p (pstr "el_exc") with
  | .str s1, .str s2 => ((parse_elements s1).inter (parse_elements s2)).isEmpty
  | _, _ => true

/-- Spec-side reading of check (6): at least one searchable field is
non-null. -/
def completeOkB (p : PyDict) : Bool :=
  search_fields_list.any (fun f => dictGet p f ≠ PyVal.none)

/-- The check names expected to appear in `issues`, in registration order,
one per failing spec-side condition. -/
def spec_failures (p : PyDict) : List PStr :=
  (if schemaOkB p then [] else [pstr "rule_schema"])
  ++ (if hardnessOkB p then [] else [pstr "rule_hardness_range"])
  ++ (if crystalOkB p then [] else [pstr "rule_crystal_system"])
  ++ (if elementsOkB p then [] else [pstr "rule_chemical_element"])
  ++ (if conflictOkB p then [] else [pstr "rule_element_conflict"])
  ++ (if completeOkB p then [] else [pstr "rule_completeness"])

/-- Boolean bundle of vocabulary facts used by the correction-idempotence
proof: every symbol is non-empty, comma-free, whitespace-trimmed, and is the
first vocabulary entry with its own lowercase form. -/
def vocab_tokens_ok : Bool :=
  valid_elements_list.all (fun v =>
    !v.isEmpty && !v.contains ',' && (pstrip v == v)
    && (element_lookup_find v == some v))

/-! ## Claim-side concrete inputs -/

/-- First candidate: `{'crystal_system': ['Hexagonal', 'Trigonal']}`. -/
def c1_cand1 : PyDict :=
  [(pstr "crystal_system", .list [.str (pstr "Hexagonal"), .str (pstr "Trigonal")])]

/-- Second candidate: the same dict with the list order swapped. -/
def c1_cand2 : PyDict :=
  [(pstr "crystal_system", .list [.str (pstr "Trigonal"), .str (pstr "Hexagonal")])]

/-- Third result: an error result, excluded from the valid candidates. -/
def c1_cand3 : PyDict := [(pstr "error message", .str (pstr "generation failed"))]

/-! # Theorems -/

/-! ## C10 -/

/-- C10: for the input `{'el_inc': ''}` rule validation returns `valid` with
`corrected_params` equal to the input — the completeness check only requires
some searchable field to be non-`None`, so an empty-string `el_inc` (and
likewise `ima = False`) counts as a search criterion, while the element,
conflict and correction steps all skip falsy strings. -/
theorem C10_empty_el_inc_is_valid :
    run_validation [(pstr "el_inc", .str [])]
      = .ok ⟨pstr "valid", Option.none, some [(pstr "el_inc", .str [])]⟩
    ∧ run_validation [(pstr "ima", .bool false)]
      = .ok ⟨pstr "valid", Option.none, some [(pstr "ima", .bool false)]⟩ := by
  exact ⟨by decide, by decide⟩

/-! ## C6 -/

/-- C6: when the semantic oracle call raises,
`model_intent_hallucination_validate` catches the exception and returns
status `invalid` with an `_error` issue whose value is `None`, whose reason
carries the error message, and whose `api_doc` is empty — for every `params`,
`query` and `docs`; the result is never `valid`. -/
theorem C6_oracle_exception_fail_closed (params : PyDict) (original_query : PStr)
    (api_docs : List (PStr × ParamDoc)) (e : PStr) :
    model_intent_hallucination_validate params original_query api_docs (.error e)
      = (SemStatus.invalid,
         some [(pstr "_error",
                ⟨PyVal.none, pstr "Validation error: " ++ e, Option.none⟩)])
    ∧ SemStatus.invalid ≠ SemStatus.valid := by
  exact ⟨rfl, by decide⟩

/-! ## C3 -/

/-- C3 (code evaluation): on a round where all three generations agree — here
three identical `{'ima': True}` candidates — `generate_params` reaches
consensus and then calls the non-existent
`ValidationPipeline._get_rule_validated_param`, so the consensus path raises
`AttributeError` instead of returning a rule-validated result. -/
theorem C3_consensus_path_raises :
    generate_params_rounds
        [[[(pstr "ima", .bool true)], [(pstr "ima", .bool true)], [(pstr "ima", .bool true)]],
         [], []]
      = .error (pstr "AttributeError: 'ValidationPipeline' object has no attribute '_get_rule_validated_param'") := by
  decide

/-! ## C4 -/

/-- C4 (code evaluation): the input `{'el_inc': 'fe', 'el_exc': 'Fe'}` passes
rule validation as `valid` — the conflict check compares the raw
case-sensitive token sets `{'fe'}` and `{'Fe'}`, which are disjoint — and the
returned `corrected_params` normalize both fields to `'Fe'`, so the corrected
inclusion and exclusion sets intersect, violating the documented
`el_inc ∩ el_exc = ∅` invariant. -/
theorem C4_case_insensitive_conflict_slips_through :
    run_validation [(pstr "el_inc", .str (pstr "fe")), (pstr "el_exc", .str (pstr "Fe"))]
      = .ok ⟨pstr "valid", Option.none,
             some [(pstr "el_inc", .str (pstr "Fe")), (pstr "el_exc", .str (pstr "Fe"))]⟩
    ∧ (parse_elements (pstr "Fe")).inter (parse_elements (pstr "Fe")) ≠ [] := by
  exact ⟨by decide, by decide⟩

/-! ## C8 (counterexample) -/

/-- C8 counterexample: for the ill-typed input `{'hardness_min': '3'}` (a
string), the chained comparison `1 <= hardness_min` raises `TypeError`, so
`run_validation` raises rather than returning a structured result —
refuting the claim for ill-typed dicts. -/
theorem C8_counterexample_string_hardness :
    run_validation [(pstr "hardness_min", .str (pstr "3"))]
      = .error (pstr "TypeError: '<=' not supported") := by
  decide

/-! ## C1 (counterexample) -/


/-- C1 counterexample: two valid candidates that differ only in the order of
elements inside their `crystal_system` list canonicalize identically under
the spec's canonicalization (`specCanonSorted`, which sorts multi-valued
fields), yet `_get_consensus` — which compares `sort_keys=True` JSON strings
and therefore never reorders lists — reaches no consensus on them, refuting
the claimed iff. -/
theorem C1_counterexample_list_order :
    specCanonSorted (.dict c1_cand1) = specCanonSorted (.dict c1_cand2)
    ∧ hasKey c1_cand1 (pstr "error message") = false
    ∧ hasKey c1_cand2 (pstr "error message") = false
    ∧ get_consensus [c1_cand1, c1_cand2, c1_cand3] = Option.none := by
  exact ⟨by decide, by decide, by decide, by decide⟩

/-! ## C1 (amended): helper lemmas about the majority vote -/

theorem bestFold_spec (full : List PyVal) :
    ∀ (l : List PyVal) (b : PyVal × Nat), b.2 = full.count b.1 →
      (bestFold full l b).2 = full.count (bestFold full l b).1
      ∧ b.2 ≤ (bestFold full l b).2
      ∧ ∀ y ∈ l, full.count y ≤ (bestFold full l b).2
  | [], b, hb => by
      refine ⟨hb, le_refl _, ?_⟩
      intro y hy
      simp at hy
  | a :: t, b, hb => by
      have step :
          bestFold full (a :: t) b
            = bestFold full t (if full.count a > b.2 then (a, full.count a) else b) := by
        simp [bestFold, List.foldl_cons]
      set b' := if full.count a > b.2 then (a, full.count a) else b with hb'
      have hb'2 : b'.2 = full.count b'.1 := by
        by_cases h : full.count a > b.2
        · simp [hb', h]
        · simpa [hb', h] using hb
      have hb'ge : b.2 ≤ b'.2 := by
        by_cases h : full.count a > b.2
        · simp [hb', h]
          omega
        · simp [hb', h]
      have ha' : full.count a ≤ b'.2 := by
        by_cases h : full.count a > b.2
        · simp [hb', h]
        · simp [hb', h]
          omega
      obtain ⟨ih1, ih2, ih3⟩ := bestFold_spec full t b' hb'2
      refine ⟨by rw [step]; exact ih1, ?_, ?_⟩
      · rw [step]; exact le_trans hb'ge ih2
      · intro y hy
        rw [step]
        rcases List.mem_cons.mp hy with rfl | hyt
        · exact le_trans ha' ih2
        · exact ih3 y hyt

theorem count_add_count_le_length (l : List PyVal) (x y : PyVal) (hxy : x ≠ y) :
    l.count x + l.count y ≤ l.length := by
  induction l with
  | nil => simp
  | cons a t ih =>
      simp only [List.count_cons, List.length_cons, beq_iff_eq]
      split_ifs with h1 h2
      · exact absurd (h1.symm.trans h2) hxy
      · omega
      · omega
      · omega

theorem mostCommon_decision_iff (canon : List PyVal) (h3 : canon.length ≤ 3) (c : PyVal) :
    (match mostCommon canon with
     | some (x, n) => if n ≥ 2 then some x else Option.none
     | Option.none => Option.none) = some c ↔ 2 ≤ canon.count c := by
  match hcanon : canon with
  | [] =>
      simp [mostCommon]
  | x0 :: t =>
      have hmc : mostCommon (x0 :: t)
          = some (bestFold (x0 :: t) (x0 :: t) (x0, (x0 :: t).count x0)) := rfl
      set full := x0 :: t with hfull
      obtain ⟨h1, _, h3max⟩ :=
        bestFold_spec full full (x0, full.count x0) rfl
      set r := bestFold full full (x0, full.count x0) with hr
      rw [hmc]
      by_cases h2 : r.2 ≥ 2
      · simp only [h2, if_pos]
        constructor
        · rintro h
          have hx : r.1 = c := by
            have := congrArg (fun o => o.getD PyVal.none) h
            simpa using this
          rw [← hx, ← h1]
          exact h2
        · intro hc
          have hcr : full.count c ≤ r.2 := by
            have hcmem : c ∈ full := by
              by_contra hmem
              rw [List.count_eq_zero_of_not_mem hmem] at hc
              omega
            exact h3max c hcmem
          have : r.1 = c := by
            by_contra hne
            have hle := count_add_count_le_length full r.1 c hne
            have hlen : full.length ≤ 3 := hcanon ▸ h3
            rw [← h1] at hle
            omega
          rw [this]
      · simp only [h2, if_neg, not_false_iff]
        constructor
        · intro h
          exact absurd h (by simp)
        · intro hc
          exfalso
          have hcmem : c ∈ full := by
            by_contra hmem
            rw [List.count_eq_zero_of_not_mem hmem] at hc
            omega
          have := h3max c hcmem
          omega

/-- C1 (amended): for every three generation results, the consensus is `some
c` iff at least two of the valid (non-error) candidates have canonical form
`c` under the code's canonicalization (`sort_keys=True`: dict keys sorted,
list order preserved) — so candidates differing only in list order do not
agree. -/
theorem C1_amended_consensus_iff (r1 r2 r3 : PyDict) (c : PyVal) :
    get_consensus [r1, r2, r3] = some c
      ↔ 2 ≤ (([r1, r2, r3].filter (fun r => !hasKey r (pstr "error message"))).map
              (fun r => canonValue (.dict r))).count c := by
  unfold get_consensus
  simp only [List.isEmpty_cons, if_false, Bool.false_eq_true]
  set valid := [r1, r2, r3].filter (fun r => !hasKey r (pstr "error message")) with hvalid
  set canon := valid.map (fun r => canonValue (.dict r)) with hcanon
  have hlen : canon.length ≤ 3 := by
    have h1 : valid.length ≤ 3 := by
      have := List.length_filter_le (fun r => !hasKey r (pstr "error message")) [r1, r2, r3]
      simpa using this
    simpa [hcanon] using h1
  by_cases hv : valid.length < 2
  · simp only [hv, if_pos]
    have : canon.count c ≤ canon.length := List.count_le_length c canon
    have hcl : canon.length = valid.length := by simp [hcanon]
    constructor
    · intro h
      exact absurd h (by simp)
    · intro h
      omega
  · simp only [hv, if_neg, not_false_iff]
    exact mostCommon_decision_iff canon hlen c

/-! ## C5: validation pipeline -/

theorem except_bind_ok {α β : Type} (a : α) (f : α → Except PStr β) :
    (Except.ok a >>= f) = f a := rfl

/-- C5: for every input to `ValidationPipeline.validate` (with the semantic
layer abstracted as an arbitrary oracle `sem`): when rule validation returns
a non-`valid` result, the pipeline returns exactly that result — for every
`sem`, so the semantic layer is never invoked; when rule validation returns
`valid` with corrected params `cp`, then with an empty original query the
rule result is returned directly, and with a non-empty query the semantic
result is returned with `cp` merged in whenever it omits `corrected_params` —
so the final result always carries corrected parameters. -/
theorem C5_pipeline_rule_gate (sem : PyDict → PStr → PStr → Except PStr VResult)
    (params : PyDict) (original_query endpoint : PStr) :
    (∀ rr, run_validation params = .ok rr → rr.status ≠ pstr "valid" →
        pipeline_validate sem params original_query endpoint = .ok rr)
    ∧ (∀ rr cp, run_validation params = .ok rr → rr.status = pstr "valid" →
        rr.corrected_params = some cp →
        (original_query = [] →
            pipeline_validate sem params original_query endpoint = .ok rr)
        ∧ (original_query ≠ [] → ∀ m, sem cp original_query endpoint = .ok m →
            pipeline_validate sem params original_query endpoint
              = .ok (if m.corrected_params = Option.none
                     then { m with corrected_params := some cp }
                     else m)
            ∧ ∀ m', pipeline_validate sem params original_query endpoint = .ok m' →
                m'.corrected_params ≠ Option.none)) := by
  constructor
  · intro rr hrun hst
    unfold pipeline_validate
    rw [hrun, except_bind_ok, if_pos hst]
    rfl
  · intro rr cp hrun hst hcp
    constructor
    · intro hq
      subst hq
      unfold pipeline_validate
      rw [hrun, except_bind_ok, if_neg (fun h => h hst)]
      rfl
    · intro hq m hsem
      have hne : original_query.isEmpty = false := by
        cases original_query with
        | nil => exact absurd rfl hq
        | cons c t => rfl
      have hpipe :
          pipeline_validate sem params original_query endpoint
            = .ok (if m.corrected_params = Option.none
                   then { m with corrected_params := some cp }
                   else m) := by
        unfold pipeline_validate
        rw [hrun, except_bind_ok, if_neg (fun h => h hst)]
        show (do
          if (!original_query.isEmpty) = true then do
            let model_result ← sem (rr.corrected_params.getD params) original_query endpoint
            if model_result.corrected_params = Option.none then
              pure { model_result with corrected_params := some (rr.corrected_params.getD params) }
            else pure model_result
          else pure rr) = _
        rw [hcp]
        simp only [Option.getD_some, hne, Bool.not_false, if_pos]
        rw [hsem, except_bind_ok]
        by_cases hm : m.corrected_params = Option.none
        · rw [if_pos hm, if_pos hm]
          rfl
        · rw [if_neg hm, if_neg hm]
          rfl
      refine ⟨hpipe, ?_⟩
      intro m' hm'
      rw [hpipe] at hm'
      have hq2 : m' = (if m.corrected_params = Option.none
                   then { m with corrected_params := some cp }
                   else m) := by
        cases hm'
        rfl
      subst hq2
      by_cases hm : m.corrected_params = Option.none
      · simp [hm]
      · simp [hm]

/-- Witness for C5: a concrete run through both the no-query path and the
semantic-merge path. -/
theorem C5_pipeline_rule_gate_witness :
    pipeline_validate (fun _ _ _ => .ok ⟨pstr "uncertain", Option.none, Option.none⟩)
        [(pstr "ima", .bool true)] (pstr "find ima minerals") geo_endpoint_str
      = .ok ⟨pstr "uncertain", Option.none, some [(pstr "ima", .bool true)]⟩
    ∧ pipeline_validate (fun _ _ _ => .ok ⟨pstr "uncertain", Option.none, Option.none⟩)
        [(pstr "ima", .bool true)] [] geo_endpoint_str
      = .ok ⟨pstr "valid", Option.none, some [(pstr "ima", .bool true)]⟩ := by
  have h := (C5_pipeline_rule_gate
      (fun _ _ _ => .ok ⟨pstr "uncertain", Option.none, Option.none⟩)
      [(pstr "ima", .bool true)] (pstr "find ima minerals") geo_endpoint_str).2
      ⟨pstr "valid", Option.none, some [(pstr "ima", .bool true)]⟩
      [(pstr "ima", .bool true)] (by decide) (by decide) (by decide)
  have h2 := (h.2 (by decide)) ⟨pstr "uncertain", Option.none, Option.none⟩ rfl
  have h3 := (C5_pipeline_rule_gate
      (fun _ _ _ => .ok ⟨pstr "uncertain", Option.none, Option.none⟩)
      [(pstr "ima", .bool true)] [] geo_endpoint_str).2
      ⟨pstr "valid", Option.none, some [(pstr "ima", .bool true)]⟩
      [(pstr "ima", .bool true)] (by decide) (by decide) (by decide)
  exact ⟨by simpa using h2.1, h3.1 rfl⟩

/-! ## C9: schema registry -/

theorem pyDocSet_wf (d : List (PyVal × ParamDoc)) (k : PyVal) (v : ParamDoc)
    (hd : ∀ e ∈ d, e.2.name = e.1) (hv : v.name = k) :
    ∀ e ∈ pyDocSet d k v, e.2.name = e.1 := by
  induction d with
  | nil =>
      intro e he
      simp only [pyDocSet, List.mem_singleton] at he
      subst he
      exact hv
  | cons kv t ih =>
      intro e he
      simp only [pyDocSet] at he
      by_cases hk : kv.1 = k
      · rw [if_pos hk] at he
        rcases List.mem_cons.mp he with rfl | het
        · exact hv
        · exact hd e (List.mem_cons_of_mem kv het)
      · rw [if_neg hk] at he
        rcases List.mem_cons.mp he with rfl | het
        · exact hd _ (List.mem_cons_self _ _)
        · exact ih (fun e' he' => hd e' (List.mem_cons_of_mem _ he')) e het

theorem extract_geo_step_wf (docs : List (PyVal × ParamDoc)) (param : PyVal)
    (docs' : List (PyVal × ParamDoc)) (h : extract_geo_step docs param = .ok docs')
    (hd : ∀ e ∈ docs, e.2.name = e.1) :
    ∀ e ∈ docs', e.2.name = e.1 := by
  unfold extract_geo_step at h
  cases h1 : pyGetD param (pstr "name") PyVal.none with
  | error e => rw [h1] at h; exact absurd h (by simp [Bind.bind, Except.bind, Pure.pure, Except.pure])
  | ok param_name =>
      rw [h1, except_bind_ok] at h
      by_cases ht : (!truthy param_name) = true
      · rw [if_pos ht] at h
        cases h
        exact hd
      · rw [if_neg ht] at h
        cases h2 : pyGetD param (pstr "schema") (.dict []) with
        | error e => rw [h2] at h; exact absurd h (by simp [Bind.bind, Except.bind, Pure.pure, Except.pure])
        | ok schema =>
            rw [h2, except_bind_ok] at h
            cases h3 : pyItems schema with
            | error e => rw [h3] at h; exact absurd h (by simp [Bind.bind, Except.bind, Pure.pure, Except.pure])
            | ok schema_entries =>
                rw [h3, except_bind_ok] at h
                cases h4 : pyGetD param (pstr "description") (.str []) with
                | error e => rw [h4] at h; exact absurd h (by simp [Bind.bind, Except.bind, Pure.pure, Except.pure])
                | ok description =>
                    rw [h4, except_bind_ok] at h
                    cases h
                    exact pyDocSet_wf docs param_name _ hd rfl

theorem extract_foldl_wf (l : List PyVal) :
    ∀ (acc docs : List (PyVal × ParamDoc)),
      l.foldlM extract_geo_step acc = .ok docs →
      (∀ e ∈ acc, e.2.name = e.1) → ∀ e ∈ docs, e.2.name = e.1 := by
  induction l with
  | nil =>
      intro acc docs h hacc
      simp only [List.foldlM_nil] at h
      cases h
      exact hacc
  | cons a t ih =>
      intro acc docs h hacc
      simp only [List.foldlM_cons] at h
      cases h1 : extract_geo_step acc a with
      | error e => rw [h1] at h; exact absurd h (by simp [Bind.bind, Except.bind, Pure.pure, Except.pure])
      | ok acc' =>
          rw [h1, except_bind_ok] at h
          exact ih acc' docs h (extract_geo_step_wf acc a acc' h1 hacc)

theorem extract_geo_params_wf (v : PyVal) (docs : List (PyVal × ParamDoc))
    (h : extract_geo_params v = .ok docs) : ∀ e ∈ docs, e.2.name = e.1 := by
  unfold extract_geo_params at h
  cases h1 : pyGetD v (pstr "paths") (.dict []) with
  | error e => rw [h1] at h; exact absurd h (by simp [Bind.bind, Except.bind, Pure.pure, Except.pure])
  | ok paths =>
      rw [h1, except_bind_ok] at h
      cases h2 : pyGetD paths (pstr "/v1/geomaterials/") (.dict []) with
      | error e => rw [h2] at h; exact absurd h (by simp [Bind.bind, Except.bind, Pure.pure, Except.pure])
      | ok endpoint =>
          rw [h2, except_bind_ok] at h
          cases h3 : pyGetD endpoint (pstr "get") (.dict []) with
          | error e => rw [h3] at h; exact absurd h (by simp [Bind.bind, Except.bind, Pure.pure, Except.pure])
          | ok get_method =>
              rw [h3, except_bind_ok] at h
              cases h4 : pyGetD get_method (pstr "parameters") (.list []) with
              | error e => rw [h4] at h; exact absurd h (by simp [Bind.bind, Except.bind, Pure.pure, Except.pure])
              | ok parameters =>
                  rw [h4, except_bind_ok] at h
                  cases h5 : pyIter parameters with
                  | error e => rw [h5] at h; exact absurd h (by simp [Bind.bind, Except.bind, Pure.pure, Except.pure])
                  | ok params_list =>
                      rw [h5, except_bind_ok] at h
                      exact extract_foldl_wf params_list [] docs h (by simp)

theorem geo_endpoint_docs_wf (fetch : Option PyVal) (st : SMState)
    (hc : ∀ d, st.cache_geo = some d → ∀ e ∈ d, e.2.name = e.1) :
    ∀ e ∈ (get_geomaterials_endpoint fetch st).1, e.2.name = e.1 := by
  unfold get_geomaterials_endpoint
  cases hcache : st.cache_geo with
  | some docs =>
      intro e he
      exact hc docs hcache e he
  | none =>
      cases hsd : st.schema_data with
      | some v =>
          cases hex : extract_geo_params v with
          | ok docs =>
              simpa [hex] using extract_geo_params_wf v docs hex
          | error e => simp [hex]
      | none =>
          cases hf : fetch with
          | none => simp [load_schema, hf]
          | some v =>
              simp only [load_schema, hf]
              cases hex : extract_geo_params v with
              | ok docs =>
                  simpa [hex] using extract_geo_params_wf v docs hex
              | error e => simp [hex]

/-- C9: (a) from a fresh schema manager, when the remote fetch/load fails,
`get_params_info` returns the empty mapping (the embedding is total: all
internal exceptions are caught, none escape); (b) in every state whose cache
is well-formed, the returned mapping's keys are a subset of the requested
names and each requested name maps to a `{name, description, schema}` record
carrying that very name. -/
theorem C9_get_params_info_contract :
    (∀ names : List PStr,
        (get_params_info Option.none sm_init names geo_endpoint_str).1 = [])
    ∧ (∀ (fetch : Option PyVal) (st : SMState) (names : List PStr) (endpoint : PStr),
        (∀ d, st.cache_geo = some d → ∀ e ∈ d, e.2.name = e.1) →
        ∀ x ∈ (get_params_info fetch st names endpoint).1,
          x.1 ∈ names ∧ x.2.name = PyVal.str x.1) := by
  constructor
  · intro names
    simp [get_params_info, get_geomaterials_endpoint, sm_init, load_schema,
          List.filterMap_eq_nil_iff]
  · intro fetch st names endpoint hc x hx
    by_cases hep : endpoint = geo_endpoint_str
    · unfold get_params_info at hx
      simp only [hep, if_pos] at hx
      obtain ⟨n, hn, hfx⟩ := List.mem_filterMap.mp hx
      cases hfind : (get_geomaterials_endpoint fetch st).1.find?
          (fun kv => kv.1 == PyVal.str n) with
      | none => rw [hfind] at hfx; exact absurd hfx (by simp)
      | some kv =>
          rw [hfind] at hfx
          rw [Option.map_some'] at hfx
          cases hfx
          have hmem := List.mem_of_find?_eq_some hfind
          have hpred := List.find?_some hfind
          have hkey : kv.1 = PyVal.str n := by simpa using hpred
          refine ⟨hn, ?_⟩
          have := geo_endpoint_docs_wf fetch st hc kv hmem
          rw [this, hkey]
    · have hempty : (get_params_info fetch st names endpoint).1 = [] := by
        unfold get_params_info
        simp [hep]
      rw [hempty] at hx
      exact absurd hx (by simp)

/-- Witness for C9: a concrete one-parameter schema document; requesting
`['ima', 'color']` returns only `ima`, mapped to a record named `ima`. -/
theorem C9_get_params_info_contract_witness :
    (get_params_info Option.none sm_init [pstr "ima"] geo_endpoint_str).1 = []
    ∧ ∀ x ∈ (get_params_info
          (some (.dict [(pstr "paths", .dict [(pstr "/v1/geomaterials/", .dict
            [(pstr "get", .dict [(pstr "parameters", .list
              [.dict [(pstr "name", .str (pstr "ima")),
                      (pstr "description", .str (pstr "IMA approved")),
                      (pstr "schema", .dict [(pstr "type", .str (pstr "boolean"))])]])])])])]))
          sm_init [pstr "ima", pstr "color"] geo_endpoint_str).1,
        x.1 ∈ [pstr "ima", pstr "color"] ∧ x.2.name = PyVal.str x.1 := by
  exact ⟨C9_get_params_info_contract.1 [pstr "ima"],
         C9_get_params_info_contract.2 _ sm_init _ geo_endpoint_str
           (fun d h => nomatch h)⟩

/-! ## Dict lemmas -/

theorem dictGet_cons (kv : PStr × PyVal) (t : PyDict) (k : PStr) :
    dictGet (kv :: t) k = if (kv.1 == k) = true then kv.2 else dictGet t k := by
  by_cases h : (kv.1 == k) = true
  · simp [dictGet, List.find?_cons_of_pos _ h, h]
  · simp [dictGet, List.find?_cons_of_neg _ h, h]

theorem dictSet_cons (kv : PStr × PyVal) (t : PyDict) (k : PStr) (v : PyVal) :
    dictSet (kv :: t) k v
      = if (kv.1 == k) = true then (k, v) :: t else kv :: dictSet t k v := rfl

theorem hasKey_cons (kv : PStr × PyVal) (t : PyDict) (k : PStr) :
    hasKey (kv :: t) k = ((kv.1 == k) || hasKey t k) := by
  simp [hasKey]

theorem dictGet_dictSet_self (p : PyDict) (k : PStr) (v : PyVal) :
    dictGet (dictSet p k v) k = v := by
  induction p with
  | nil =>
      show dictGet [(k, v)] k = v
      rw [dictGet_cons]
      simp
  | cons kv t ih =>
      rw [dictSet_cons]
      by_cases h : (kv.1 == k) = true
      · rw [if_pos h, dictGet_cons]
        simp
      · rw [if_neg h, dictGet_cons, if_neg (by simp_all), ih]

theorem dictGet_dictSet_ne (p : PyDict) (k k' : PStr) (v : PyVal) (h : ¬k' = k) :
    dictGet (dictSet p k' v) k = dictGet p k := by
  have hbf : (k' == k) = false := by simpa [beq_iff_eq] using h
  induction p with
  | nil =>
      show dictGet [(k', v)] k = dictGet [] k
      rw [dictGet_cons]
      simp [hbf]
  | cons kv t ih =>
      rw [dictSet_cons]
      by_cases hk : (kv.1 == k') = true
      · have h1 : kv.1 = k' := by simpa [beq_iff_eq] using hk
        rw [if_pos hk, dictGet_cons, dictGet_cons]
        simp [hbf, h1]
      · rw [if_neg hk, dictGet_cons, dictGet_cons, ih]

theorem hasKey_of_dictGet_ne_none (p : PyDict) (k : PStr)
    (h : dictGet p k ≠ PyVal.none) : hasKey p k = true := by
  induction p with
  | nil => exact absurd rfl h
  | cons kv t ih =>
      rw [hasKey_cons]
      rw [dictGet_cons] at h
      by_cases hk : (kv.1 == k) = true
      · simp [hk]
      · rw [if_neg hk] at h
        simp [hk, ih h]

theorem dictSet_same (p : PyDict) (k : PStr) (v : PyVal)
    (hk : hasKey p k = true) (hv : dictGet p k = v) : dictSet p k v = p := by
  induction p with
  | nil => simp [hasKey] at hk
  | cons kv t ih =>
      rw [dictSet_cons]
      rw [dictGet_cons] at hv
      rw [hasKey_cons] at hk
      by_cases h : (kv.1 == k) = true
      · have h1 : kv.1 = k := by simpa [beq_iff_eq] using h
        rw [if_pos h]
        rw [if_pos h] at hv
        rw [← h1, ← hv]
      · rw [if_neg h]
        rw [if_neg h] at hv
        have hk' : hasKey t k = true := by simpa [h] using hk
        rw [ih hk' hv]

/-! ## Well-typedness shape lemmas -/

theorem boolEqOfIff {a b : Bool} (h : a = true ↔ b = true) : a = b := by
  cases a <;> cases b <;> simp_all

theorem wt_get (p : PyDict) (h : WT p = true) (k : PStr) :
    wtField k (dictGet p k) = true := by
  unfold dictGet
  cases hf : p.find? (fun kv => kv.1 == k) with
  | none =>
      unfold wtField
      split_ifs <;> rfl
  | some kv =>
      have hmem := List.mem_of_find?_eq_some hf
      have hpred : kv.1 = k := by simpa using List.find?_some hf
      have h' : p.all (fun kv => wtField kv.1 kv.2) = true := h
      have hall := List.all_eq_true.mp h' kv hmem
      simpa [hpred] using hall

theorem wt_hardness_min_shape (p : PyDict) (h : WT p = true) :
    dictGet p (pstr "hardness_min") = PyVal.none
    ∨ ∃ q, dictGet p (pstr "hardness_min") = PyVal.float q := by
  have hw := wt_get p h (pstr "hardness_min")
  unfold wtField at hw
  rw [if_neg (by decide), if_pos (by decide)] at hw
  cases hv : dictGet p (pstr "hardness_min") <;> rw [hv] at hw <;> simp_all

theorem wt_hardness_max_shape (p : PyDict) (h : WT p = true) :
    dictGet p (pstr "hardness_max") = PyVal.none
    ∨ ∃ q, dictGet p (pstr "hardness_max") = PyVal.float q := by
  have hw := wt_get p h (pstr "hardness_max")
  unfold wtField at hw
  rw [if_neg (by decide), if_pos (by decide)] at hw
  cases hv : dictGet p (pstr "hardness_max") <;> rw [hv] at hw <;> simp_all

theorem wt_crystal_shape (p : PyDict) (h : WT p = true) :
    dictGet p (pstr "crystal_system") = PyVal.none
    ∨ ∃ l, dictGet p (pstr "crystal_system") = PyVal.list l
        ∧ ∀ v ∈ l, ∃ s, v = PyVal.str s := by
  have hw := wt_get p h (pstr "crystal_system")
  unfold wtField at hw
  rw [if_neg (by decide), if_neg (by decide), if_pos (by decide)] at hw
  cases hv : dictGet p (pstr "crystal_system") <;> rw [hv] at hw <;> simp_all
  rename_i l
  intro v hv'
  have := hw v hv'
  cases v <;> simp_all

theorem wt_el_inc_shape (p : PyDict) (h : WT p = true) :
    dictGet p (pstr "el_inc") = PyVal.none
    ∨ ∃ s, dictGet p (pstr "el_inc") = PyVal.str s := by
  have hw := wt_get p h (pstr "el_inc")
  unfold wtField at hw
  rw [if_neg (by decide), if_neg (by decide), if_neg (by decide),
      if_pos (by decide)] at hw
  cases hv : dictGet p (pstr "el_inc") <;> rw [hv] at hw <;> simp_all

theorem wt_el_exc_shape (p : PyDict) (h : WT p = true) :
    dictGet p (pstr "el_exc") = PyVal.none
    ∨ ∃ s, dictGet p (pstr "el_exc") = PyVal.str s := by
  have hw := wt_get p h (pstr "el_exc")
  unfold wtField at hw
  rw [if_neg (by decide), if_neg (by decide), if_neg (by decide),
      if_pos (by decide)] at hw
  cases hv : dictGet p (pstr "el_exc") <;> rw [hv] at hw <;> simp_all

/-! ## The six checks, related to their spec-side conditions under WT -/

theorem filter_not_isEmpty_eq_all {α : Type} (l : List α) (q : α → Bool) :
    (l.filter (fun x => !q x)).isEmpty = l.all q := by
  induction l with
  | nil => rfl
  | cons a t ih =>
      by_cases h : q a = true
      · simpa [List.filter, h] using ih
      · simp [List.filter, h]

theorem rule_schema_check (p : PyDict) :
    rule_schema_validate p
      = .ok (schemaOkB p,
             if schemaOkB p then Option.none else some (pstr "Unexpected fields: ")) := by
  simp only [rule_schema_validate, schemaOkB, filter_not_isEmpty_eq_all]
  by_cases h : (keysOf p).all (fun k => valid_fields_list.contains k) = true
  · have hall : ∀ x ∈ keysOf p, x ∈ valid_fields_list := by
      intro x hx
      simpa using List.all_eq_true.mp h x hx
    simp [h]
    exact ⟨hall, by rw [if_pos hall]⟩
  · have hf : (keysOf p).all (fun k => valid_fields_list.contains k) = false := by
      simpa using h
    simp [hf]
    simpa using hf

theorem rule_completeness_check (p : PyDict) :
    rule_completeness_validate p
      = .ok (completeOkB p,
             if completeOkB p then Option.none
             else some (pstr "At least one search criterion must be specified")) := by
  unfold rule_completeness_validate completeOkB
  by_cases h : search_fields_list.any (fun f => decide (dictGet p f ≠ PyVal.none)) = true
  · rw [if_pos h, h]
    simp
  · rw [if_neg h]
    have hf : search_fields_list.any (fun f => decide (dictGet p f ≠ PyVal.none)) = false := by
      simpa using h
    rw [hf]
    simp

theorem rule_hardness_check (p : PyDict) (h : WT p = true) :
    ∃ m, rule_hardness_range_validate p = .ok (hardnessOkB p, m) := by
  rcases wt_hardness_min_shape p h with hm | ⟨q1, hm⟩ <;>
    rcases wt_hardness_max_shape p h with hM | ⟨q2, hM⟩ <;>
    simp only [rule_hardness_range_validate, hardnessOkB, hm, hM, toNum, pyChainBetween,
               pyLeNumL, pyLeNumR, pyGtNum, Bind.bind, Except.bind, Pure.pure, Except.pure]
  · exact ⟨_, by simp; rfl⟩
  · by_cases h1 : (1 : ℚ) ≤ q2
    · by_cases h2 : q2 ≤ (10 : ℚ)
      · exact ⟨_, by simp [h1, h2]; rfl⟩
      · exact ⟨_, by simp [h1, h2]; rfl⟩
    · exact ⟨_, by simp [h1]; rfl⟩
  · by_cases h1 : (1 : ℚ) ≤ q1
    · by_cases h2 : q1 ≤ (10 : ℚ)
      · exact ⟨_, by simp [h1, h2]; rfl⟩
      · exact ⟨_, by simp [h1, h2]; rfl⟩
    · exact ⟨_, by simp [h1]; rfl⟩
  · by_cases h1 : (1 : ℚ) ≤ q1
    · by_cases h2 : q1 ≤ (10 : ℚ)
      · by_cases h3 : (1 : ℚ) ≤ q2
        · by_cases h4 : q2 ≤ (10 : ℚ)
          · by_cases h5 : q2 < q1
            · exact ⟨_, by simp [h1, h2, h3, h4, h5, not_le_of_lt h5]; rfl⟩
            · exact ⟨_, by simp [h1, h2, h3, h4, h5, not_lt.mp h5]; rfl⟩
          · exact ⟨_, by simp [h1, h2, h3, h4]; rfl⟩
        · exact ⟨_, by simp [h1, h2, h3]; rfl⟩
      · exact ⟨_, by simp [h1, h2]; rfl⟩
    · exact ⟨_, by simp [h1]; rfl⟩

theorem any_not_eq_not_all {α : Type} (l : List α) (q : α → Bool) :
    (l.any fun x => !q x) = !l.all q := by
  induction l with
  | nil => rfl
  | cons a t ih => by_cases h : q a = true <;> simp_all

theorem rule_crystal_check (p : PyDict) (h : WT p = true) :
    ∃ m, rule_crystal_system_validate p = .ok (crystalOkB p, m) := by
  rcases wt_crystal_shape p h with hc | ⟨l, hc, hstr⟩
  · refine ⟨Option.none, ?_⟩
    simp [rule_crystal_system_validate, crystalOkB, hc,
          Bind.bind, Except.bind, Pure.pure, Except.pure]
  · have hhash : (l.all fun v =>
        match v with | .list _ => false | .dict _ => false | _ => true) = true := by
      rw [List.all_eq_true]
      intro v hv
      obtain ⟨s, rfl⟩ := hstr v hv
      rfl
    have hne : PyVal.list l ≠ PyVal.none := by simp
    simp only [rule_crystal_system_validate, crystalOkB, hc, pyIter, pySet, hhash,
               hne, Bind.bind, Except.bind, Pure.pure, Except.pure, if_pos, if_neg,
               not_false_iff]
    by_cases hall : (l.all fun v =>
        match v with | .str s => valid_crystal_systems_list.contains s | _ => false) = true
    · have hnilf : (l.dedup.filter fun v =>
          match v with | .str s => !valid_crystal_systems_list.contains s | _ => true) = [] := by
        rw [List.filter_eq_nil_iff]
        intro v hv
        obtain ⟨s, rfl⟩ := hstr v (List.mem_dedup.mp hv)
        have := List.all_eq_true.mp hall _ (List.mem_dedup.mp hv)
        simp_all
      rw [hall, hnilf]
      exact ⟨_, by simp; rfl⟩
    · have hex : ∃ v ∈ l, (match v with
          | .str s => valid_crystal_systems_list.contains s | _ => false) = false := by
        rcases List.all_eq_false.mp (Bool.eq_false_iff.mpr hall) with ⟨v, hv, hvf⟩
        exact ⟨v, hv, by simpa using hvf⟩
      obtain ⟨v, hv, hvf⟩ := hex
      obtain ⟨s, rfl⟩ := hstr v hv
      have hbad : (PyVal.str s) ∈ l.dedup.filter (fun v =>
          match v with | .str s => !valid_crystal_systems_list.contains s | _ => true) := by
        rw [List.mem_filter]
        exact ⟨List.mem_dedup.mpr hv, by simpa using hvf⟩
      have hnonnil : ¬(l.dedup.filter fun v =>
          match v with | .str s => !valid_crystal_systems_list.contains s | _ => true).isEmpty = true := by
        rw [List.isEmpty_iff]
        exact fun hnil => by rw [hnil] at hbad; exact absurd hbad (List.not_mem_nil _)
      have hallf : (l.all fun v =>
          match v with | .str s => valid_crystal_systems_list.contains s | _ => false) = false :=
        Bool.eq_false_iff.mpr hall
      rw [hallf]
      exact ⟨_, by rw [if_pos (by simpa using hnonnil)]⟩

theorem parse_elements_nil : parse_elements [] = [] := rfl

theorem rule_elements_check (p : PyDict) (h : WT p = true) :
    ∃ m, rule_chemical_element_validate p = .ok (elementsOkB p, m) := by
  unfold rule_chemical_element_validate elementsOkB
  rcases wt_el_inc_shape p h with hi | ⟨s1, hi⟩ <;>
    rcases wt_el_exc_shape p h with he | ⟨s2, he⟩ <;>
    rw [hi, he] <;>
    simp only [truthy, tokensOkB, asPyStr, any_not_eq_not_all,
               Bind.bind, Except.bind, Pure.pure, Except.pure]
  · exact ⟨_, by simp [parse_elements_nil]; rfl⟩
  · by_cases hs2 : s2.isEmpty
    · rw [List.isEmpty_iff.mp hs2]
      exact ⟨_, by simp [parse_elements_nil]; rfl⟩
    · have hs2' : (!s2.isEmpty) = true := by simp [Bool.eq_false_iff.mpr hs2]
      rw [hs2']
      by_cases hall2 : ((parse_elements s2).all
          fun t => (valid_elements_list.map plower).contains (plower t)) = true
      · rw [hall2]
        exact ⟨_, by simp [parse_elements_nil]; rfl⟩
      · rw [Bool.eq_false_iff.mpr hall2]
        exact ⟨_, by simp [parse_elements_nil]; rfl⟩
  · by_cases hs1 : s1.isEmpty
    · rw [List.isEmpty_iff.mp hs1]
      exact ⟨_, by simp [parse_elements_nil]; rfl⟩
    · have hs1' : (!s1.isEmpty) = true := by simp [Bool.eq_false_iff.mpr hs1]
      rw [hs1']
      by_cases hall1 : ((parse_elements s1).all
          fun t => (valid_elements_list.map plower).contains (plower t)) = true
      · rw [hall1]
        exact ⟨_, by simp [parse_elements_nil]; rfl⟩
      · rw [Bool.eq_false_iff.mpr hall1]
        exact ⟨_, by simp [parse_elements_nil]; rfl⟩
  · by_cases hs1 : s1.isEmpty
    · rw [List.isEmpty_iff.mp hs1]
      by_cases hs2 : s2.isEmpty
      · rw [List.isEmpty_iff.mp hs2]
        exact ⟨_, by simp [parse_elements_nil]; rfl⟩
      · have hs2' : (!s2.isEmpty) = true := by simp [Bool.eq_false_iff.mpr hs2]
        rw [hs2']
        by_cases hall2 : ((parse_elements s2).all
            fun t => (valid_elements_list.map plower).contains (plower t)) = true
        · rw [hall2]
          exact ⟨_, by simp [parse_elements_nil]; rfl⟩
        · rw [Bool.eq_false_iff.mpr hall2]
          exact ⟨_, by simp [parse_elements_nil]; rfl⟩
    · have hs1' : (!s1.isEmpty) = true := by simp [Bool.eq_false_iff.mpr hs1]
      rw [hs1']
      by_cases hall1 : ((parse_elements s1).all
          fun t => (valid_elements_list.map plower).contains (plower t)) = true
      · rw [hall1]
        by_cases hs2 : s2.isEmpty
        · rw [List.isEmpty_iff.mp hs2]
          exact ⟨_, by simp [parse_elements_nil]; rfl⟩
        · have hs2' : (!s2.isEmpty) = true := by simp [Bool.eq_false_iff.mpr hs2]
          rw [hs2']
          by_cases hall2 : ((parse_elements s2).all
              fun t => (valid_elements_list.map plower).contains (plower t)) = true
          · rw [hall2]
            exact ⟨_, by simp [parse_elements_nil]; rfl⟩
          · rw [Bool.eq_false_iff.mpr hall2]
            exact ⟨_, by simp [parse_elements_nil]; rfl⟩
      · rw [Bool.eq_false_iff.mpr hall1]
        exact ⟨_, by simp [parse_elements_nil]; rfl⟩

theorem inter_eq_filter_contains (l1 l2 : List PStr) :
    l1.inter l2 = l1.filter (fun t => l2.contains t) := rfl

theorem inter_nil_pstr (l1 : List PStr) : l1.inter ([] : List PStr) = [] := by
  rw [inter_eq_filter_contains]
  simp

theorem rule_conflict_check (p : PyDict) (h : WT p = true) :
    ∃ m, rule_element_conflict_validate p = .ok (conflictOkB p, m) := by
  unfold rule_element_conflict_validate conflictOkB
  rcases wt_el_inc_shape p h with hi | ⟨s1, hi⟩ <;>
    rcases wt_el_exc_shape p h with he | ⟨s2, he⟩ <;>
    rw [hi, he] <;>
    simp only [truthy, asPyStr, Bind.bind, Except.bind, Pure.pure, Except.pure]
  · exact ⟨_, by simp; rfl⟩
  · exact ⟨_, by simp; rfl⟩
  · exact ⟨_, by simp; rfl⟩
  · by_cases hs1 : s1.isEmpty = true
    · rw [List.isEmpty_iff.mp hs1]
      exact ⟨_, by simp [parse_elements_nil, inter_eq_filter_contains]; rfl⟩
    · by_cases hs2 : s2.isEmpty = true
      · rw [List.isEmpty_iff.mp hs2]
        exact ⟨_, by simp [Bool.eq_false_iff.mpr hs1, parse_elements_nil,
                           inter_nil_pstr]; rfl⟩
      · rw [inter_eq_filter_contains]
        have h1 : s1.isEmpty = false := Bool.eq_false_iff.mpr hs1
        have h2 : s2.isEmpty = false := Bool.eq_false_iff.mpr hs2
        rw [h1, h2]
        by_cases hconf : ((parse_elements s1).filter
            (fun t => (parse_elements s2).contains t)).isEmpty = true
        · refine ⟨Option.none, ?_⟩
          rw [hconf]
          rfl
        · refine ⟨some (pstr "Elements cannot be both included and excluded: "), ?_⟩
          rw [Bool.eq_false_iff.mpr hconf]
          rfl

theorem correct_field_ok (p : PyDict) (f : PStr)
    (hf : dictGet p f = PyVal.none ∨ ∃ s, dictGet p f = PyVal.str s) :
    ∃ p', correct_field p f = .ok p' ∧ ∀ k, ¬f = k → dictGet p' k = dictGet p k := by
  rcases hf with hf | ⟨s, hf⟩
  · refine ⟨p, ?_, fun k _ => rfl⟩
    unfold correct_field
    rw [hf]
    rfl
  · by_cases hs : s.isEmpty = true
    · rw [List.isEmpty_iff.mp hs] at hf
      refine ⟨p, ?_, fun k _ => rfl⟩
      unfold correct_field
      rw [hf]
      rfl
    · refine ⟨dictSet p f (.str (correct_element_case s)), ?_, ?_⟩
      · unfold correct_field
        rw [hf]
        have ht : truthy (PyVal.str s) = true := by
          simp [truthy, Bool.eq_false_iff.mpr hs]
        rw [ht]
        rfl
      · intro k hk
        exact dictGet_dictSet_ne p k f _ hk

theorem apply_corrections_wt (p : PyDict) (h : WT p = true) :
    ∃ cp, apply_corrections p = .ok cp := by
  obtain ⟨p1, hp1, hp1k⟩ := correct_field_ok p (pstr "el_inc") (wt_el_inc_shape p h)
  have hexc1 : dictGet p1 (pstr "el_exc") = dictGet p (pstr "el_exc") :=
    hp1k (pstr "el_exc") (by decide)
  obtain ⟨p2, hp2, _⟩ := correct_field_ok p1 (pstr "el_exc")
    (by rw [hexc1]; exact wt_el_exc_shape p h)
  refine ⟨p2, ?_⟩
  unfold apply_corrections
  rw [hp1, except_bind_ok, hp2]

theorem pstr_invalid_ne_valid : ¬pstr "invalid" = pstr "valid" := by decide

theorem bind_congr_ok {α β : Type} {m : Except PStr α} {a : α} (h : m = .ok a)
    (f : α → Except PStr β) : (m >>= f) = f a := by
  rw [h]
  rfl

theorem run_validation_characterization (p : PyDict) (h : WT p = true) :
    ∃ r, run_validation p = .ok r
    ∧ (r.status = pstr "valid"
        ↔ (schemaOkB p && hardnessOkB p && crystalOkB p && elementsOkB p
           && conflictOkB p && completeOkB p) = true)
    ∧ (r.status = pstr "valid" → r.issues = Option.none
        ∧ ∃ cp, apply_corrections p = .ok cp ∧ r.corrected_params = some cp)
    ∧ (r.status ≠ pstr "valid" → r.status = pstr "invalid"
        ∧ r.corrected_params = Option.none
        ∧ ∃ iss, r.issues = some iss ∧ iss.map Prod.fst = spec_failures p) := by
  obtain ⟨m2, hh2⟩ := rule_hardness_check p h
  obtain ⟨m3, hh3⟩ := rule_crystal_check p h
  obtain ⟨m4, hh4⟩ := rule_elements_check p h
  obtain ⟨m5, hh5⟩ := rule_conflict_check p h
  obtain ⟨cp, hcp⟩ := apply_corrections_wt p h
  unfold run_validation spec_failures
  rw [rule_schema_check p, except_bind_ok, hh2, except_bind_ok, hh3, except_bind_ok,
      hh4, except_bind_ok, hh5, except_bind_ok, rule_completeness_check p,
      except_bind_ok]
  cases hb1 : schemaOkB p <;> cases hb2 : hardnessOkB p <;>
    cases hb3 : crystalOkB p <;> cases hb4 : elementsOkB p <;>
    cases hb5 : conflictOkB p <;> cases hb6 : completeOkB p <;>
    first
      | (refine ⟨⟨pstr "valid", Option.none, some cp⟩, ?_, ?_, ?_, ?_⟩
         · exact bind_congr_ok hcp _
         · exact Iff.intro (fun _ => rfl) (fun _ => rfl)
         · exact fun _ => ⟨rfl, cp, hcp, rfl⟩
         · exact fun hne => absurd rfl hne)
      | (refine ⟨_, rfl, ?_, ?_, ?_⟩
         · exact Iff.intro (fun hh => absurd hh pstr_invalid_ne_valid)
                 (fun hh => by simp at hh)
         · exact fun hcontra => absurd hcontra pstr_invalid_ne_valid
         · intro _
           refine ⟨rfl, rfl, ?_⟩
           refine ⟨_, rfl, ?_⟩
           rfl)

/-! ## C2 -/

/-- C2: for every well-typed candidate parameter dict (the shape every
pydantic-produced candidate has), `run_validation` returns a structured
result whose status is `valid` — with corrected params attached — iff all six
rule checks hold simultaneously: keys in the declared field set, hardness
bounds in `[1,10]` with `min ≤ max` when both present, crystal systems in the
9-value enum, all element tokens in the vocabulary case-insensitively,
inclusion/exclusion disjoint, and some searchable field non-null; otherwise
the status is `invalid` and `issues` holds one entry keyed by check name for
every failing check, in registration order (no short-circuiting). -/
theorem C2_run_validation_valid_iff_all_checks (p : PyDict) (h : WT p = true) :
    ∃ r, run_validation p = .ok r
    ∧ (r.status = pstr "valid"
        ↔ (schemaOkB p && hardnessOkB p && crystalOkB p && elementsOkB p
           && conflictOkB p && completeOkB p) = true)
    ∧ (r.status = pstr "valid" → r.issues = Option.none
        ∧ ∃ cp, apply_corrections p = .ok cp ∧ r.corrected_params = some cp)
    ∧ (r.status ≠ pstr "valid" → r.status = pstr "invalid"
        ∧ r.corrected_params = Option.none
        ∧ ∃ iss, r.issues = some iss ∧ iss.map Prod.fst = spec_failures p) :=
  run_validation_characterization p h

/-- Witness for C2 at the spec's own test input
`{'hardness_min': 3, 'hardness_max': 1}`. -/
theorem C2_run_validation_valid_iff_all_checks_witness :
    WT [(pstr "hardness_min", .float 3), (pstr "hardness_max", .float 1)] = true
    ∧ ∃ r, run_validation [(pstr "hardness_min", .float 3), (pstr "hardness_max", .float 1)]
          = .ok r
    ∧ (r.status = pstr "valid"
        ↔ (schemaOkB [(pstr "hardness_min", .float 3), (pstr "hardness_max", .float 1)]
           && hardnessOkB [(pstr "hardness_min", .float 3), (pstr "hardness_max", .float 1)]
           && crystalOkB [(pstr "hardness_min", .float 3), (pstr "hardness_max", .float 1)]
           && elementsOkB [(pstr "hardness_min", .float 3), (pstr "hardness_max", .float 1)]
           && conflictOkB [(pstr "hardness_min", .float 3), (pstr "hardness_max", .float 1)]
           && completeOkB [(pstr "hardness_min", .float 3), (pstr "hardness_max", .float 1)]) = true)
    ∧ (r.status = pstr "valid" → r.issues = Option.none
        ∧ ∃ cp, apply_corrections [(pstr "hardness_min", .float 3), (pstr "hardness_max", .float 1)]
              = .ok cp ∧ r.corrected_params = some cp)
    ∧ (r.status ≠ pstr "valid" → r.status = pstr "invalid"
        ∧ r.corrected_params = Option.none
        ∧ ∃ iss, r.issues = some iss
            ∧ iss.map Prod.fst
                = spec_failures [(pstr "hardness_min", .float 3), (pstr "hardness_max", .float 1)]) :=
  ⟨by decide,
   C2_run_validation_valid_iff_all_checks
     [(pstr "hardness_min", .float 3), (pstr "hardness_max", .float 1)] (by decide)⟩

/-! ## C8 (amended) -/

/-- C8 (amended): for every well-typed candidate parameter dict — the claim
as stated fails for ill-typed values such as a string `hardness_min`, where
the chained comparison raises `TypeError` — `run_validation` returns a
structured result and never raises. -/
theorem C8_amended_wt_never_raises (p : PyDict) (h : WT p = true) :
    ∃ r, run_validation p = .ok r := by
  obtain ⟨r, hr, _⟩ := run_validation_characterization p h
  exact ⟨r, hr⟩

/-- Witness for C8 (amended) at a well-typed input. -/
theorem C8_amended_wt_never_raises_witness :
    WT [(pstr "ima", .bool true), (pstr "el_inc", .str (pstr "Fe,Cu"))] = true
    ∧ ∃ r, run_validation [(pstr "ima", .bool true), (pstr "el_inc", .str (pstr "Fe,Cu"))]
        = .ok r :=
  ⟨by decide,
   C8_amended_wt_never_raises
     [(pstr "ima", .bool true), (pstr "el_inc", .str (pstr "Fe,Cu"))] (by decide)⟩

/-! ## C7: correction idempotence — string and vocabulary lemmas -/

theorem vocab_tokens_ok_true : vocab_tokens_ok = true := by decide

theorem splitComma_ne_nil (s : PStr) : splitComma s ≠ [] := by
  induction s with
  | nil => simp [splitComma]
  | cons c rest ih =>
      unfold splitComma
      by_cases h : c = ','
      · simp [h]
      · rw [if_neg h]
        cases hsp : splitComma rest with
        | nil => exact absurd hsp ih
        | cons hh tl => simp

theorem mem_splitComma_no_comma (s : PStr) : ∀ t ∈ splitComma s, ',' ∉ t := by
  induction s with
  | nil =>
      intro t ht
      simp [splitComma] at ht
      simp [ht]
  | cons c rest ih =>
      intro t ht
      unfold splitComma at ht
      by_cases h : c = ','
      · rw [if_pos h] at ht
        rcases List.mem_cons.mp ht with rfl | htl
        · simp
        · exact ih t htl
      · rw [if_neg h] at ht
        cases hsp : splitComma rest with
        | nil => exact absurd hsp (splitComma_ne_nil rest)
        | cons hh tl =>
            rw [hsp] at ht
            rcases List.mem_cons.mp ht with rfl | htl
            · intro hc
              rcases List.mem_cons.mp hc with hc | hc
              · exact h hc.symm
              · exact ih hh (hsp ▸ List.mem_cons_self hh tl) hc
            · exact ih t (hsp ▸ List.mem_cons_of_mem hh htl)

theorem splitComma_no_comma (x : PStr) (h : ',' ∉ x) : splitComma x = [x] := by
  induction x with
  | nil => rfl
  | cons c rest ih =>
      unfold splitComma
      have hc : ¬c = ',' := fun hc => h (hc ▸ List.mem_cons_self c rest)
      rw [if_neg hc, ih (fun hm => h (List.mem_cons_of_mem c hm))]

theorem splitComma_append_comma (x r : PStr) (h : ',' ∉ x) :
    splitComma (x ++ ',' :: r) = x :: splitComma r := by
  induction x with
  | nil => simp [splitComma]
  | cons c rest ih =>
      have hc : ¬c = ',' := fun hc => h (hc ▸ List.mem_cons_self c rest)
      show splitComma (c :: (rest ++ ',' :: r)) = (c :: rest) :: splitComma r
      conv_lhs => rw [splitComma]
      rw [if_neg hc, ih (fun hm => h (List.mem_cons_of_mem c hm))]

theorem splitComma_joinComma (l : List PStr) (hl : l ≠ [])
    (hc : ∀ t ∈ l, ',' ∉ t) : splitComma (joinComma l) = l := by
  induction l with
  | nil => exact absurd rfl hl
  | cons x t ih =>
      cases t with
      | nil =>
          show splitComma (joinComma [x]) = [x]
          exact splitComma_no_comma x (hc x (List.mem_cons_self x []))
      | cons y t' =>
          show splitComma (x ++ ',' :: joinComma (y :: t')) = x :: (y :: t')
          rw [splitComma_append_comma x _ (hc x (List.mem_cons_self x _))]
          rw [ih (by simp) (fun u hu => hc u (List.mem_cons_of_mem x hu))]

theorem mem_pstrip (s : PStr) (c : Char) (h : c ∈ pstrip s) : c ∈ s := by
  unfold pstrip at h
  have h1 := List.mem_reverse.mp h
  have h2 := (List.dropWhile_sublist _).subset h1
  have h3 := List.mem_reverse.mp h2
  exact (List.dropWhile_sublist _).subset h3

theorem pstrip_eq_self_of (s : PStr)
    (h1 : ∀ c, s.head? = some c → c.isWhitespace = false)
    (h2 : ∀ c, s.getLast? = some c → c.isWhitespace = false) :
    pstrip s = s := by
  cases s with
  | nil => rfl
  | cons a t =>
      have ha : a.isWhitespace = false := h1 a rfl
      unfold pstrip
      rw [List.dropWhile_cons_of_neg (by simp [ha])]
      cases hrev : (a :: t).reverse with
      | nil => exact absurd (congrArg List.length hrev) (by simp)
      | cons b u =>
          have hb : b.isWhitespace = false := by
            apply h2
            rw [← List.head?_reverse, hrev]
            rfl
          rw [List.dropWhile_cons_of_neg (by simp [hb]), ← hrev, List.reverse_reverse]

theorem dropWhile_head?_not {p : Char → Bool} (l : PStr) (c : Char)
    (h : (List.dropWhile p l).head? = some c) : p c = false := by
  have hne : List.dropWhile p l ≠ [] := by
    intro hnil
    rw [hnil] at h
    exact absurd h (by simp)
  have := List.head?_eq_head hne
  rw [this] at h
  cases h
  exact List.head_dropWhile_not p l hne

theorem pstrip_head?_not_ws (s : PStr) (c : Char)
    (h : (pstrip s).head? = some c) : c.isWhitespace = false := by
  unfold pstrip at h
  rw [List.head?_reverse] at h
  have hB : (List.dropWhile Char.isWhitespace
      (List.dropWhile Char.isWhitespace s).reverse) ≠ [] := by
    intro hnil
    rw [hnil] at h
    exact absurd h (by simp)
  obtain ⟨pre, hpre⟩ := List.dropWhile_suffix
    (l := (List.dropWhile Char.isWhitespace s).reverse) Char.isWhitespace
  have hgl : ((List.dropWhile Char.isWhitespace s).reverse).getLast?
      = (List.dropWhile Char.isWhitespace
          (List.dropWhile Char.isWhitespace s).reverse).getLast? := by
    conv_lhs => rw [← hpre]
    exact List.getLast?_append_of_ne_nil pre hB
  rw [← hgl, List.getLast?_reverse] at h
  exact dropWhile_head?_not s c h

theorem pstrip_getLast?_not_ws (s : PStr) (c : Char)
    (h : (pstrip s).getLast? = some c) : c.isWhitespace = false := by
  unfold pstrip at h
  rw [List.getLast?_reverse] at h
  exact dropWhile_head?_not _ c h

theorem pstrip_idem (s : PStr) : pstrip (pstrip s) = pstrip s :=
  pstrip_eq_self_of (pstrip s) (pstrip_head?_not_ws s) (pstrip_getLast?_not_ws s)

theorem parse_elements_props (s : PStr) :
    ∀ t ∈ parse_elements s, t ≠ [] ∧ pstrip t = t ∧ ',' ∉ t := by
  intro t ht
  unfold parse_elements at ht
  have ht1 := List.mem_dedup.mp ht
  have ht2 := List.mem_filter.mp ht1
  obtain ⟨raw, hraw, hmap⟩ := List.mem_map.mp ht2.1
  refine ⟨?_, ?_, ?_⟩
  · intro hnil
    rw [hnil] at ht2
    exact absurd ht2.2 (by simp)
  · rw [← hmap]
    exact pstrip_idem raw
  · intro hcm
    rw [← hmap] at hcm
    exact mem_splitComma_no_comma s raw hraw (mem_pstrip raw ',' hcm)

theorem vocab_props (v : PStr) (hv : v ∈ valid_elements_list) :
    v ≠ [] ∧ ',' ∉ v ∧ pstrip v = v ∧ element_lookup_find v = some v := by
  have hall := List.all_eq_true.mp vocab_tokens_ok_true v hv
  simp only [Bool.and_eq_true] at hall
  obtain ⟨⟨⟨e1, e2⟩, e3⟩, e4⟩ := hall
  exact ⟨by simpa using e1, by simpa using e2, by simpa using e3, by simpa using e4⟩

theorem correct_tok_props (t : PStr) (h1 : t ≠ []) (h2 : pstrip t = t) (h3 : ',' ∉ t) :
    correct_tok t ≠ [] ∧ pstrip (correct_tok t) = correct_tok t
    ∧ ',' ∉ correct_tok t ∧ correct_tok (correct_tok t) = correct_tok t := by
  cases hf : element_lookup_find t with
  | none =>
      have he : correct_tok t = t := by unfold correct_tok; rw [hf]; rfl
      rw [he]
      exact ⟨h1, h2, h3, he⟩
  | some v =>
      have hv : v ∈ valid_elements_list := by
        unfold element_lookup_find at hf
        exact List.mem_of_find?_eq_some hf
      have he : correct_tok t = v := by unfold correct_tok; rw [hf]; rfl
      obtain ⟨p1, p2, p3, p4⟩ := vocab_props v hv
      rw [he]
      refine ⟨p1, p3, p2, ?_⟩
      unfold correct_tok
      rw [p4]
      rfl

theorem cec_idem (s : PStr) :
    correct_element_case (correct_element_case s) = correct_element_case s := by
  unfold correct_element_case
  set C := ((parse_elements s).map correct_tok).dedup with hC
  set out := List.insertionSort (· ≤ ·) C with hout
  have hperm := List.perm_insertionSort (α := PStr) (· ≤ ·) C
  have hprops : ∀ t ∈ out, t ≠ [] ∧ pstrip t = t ∧ ',' ∉ t ∧ correct_tok t = t := by
    intro t ht
    have htC : t ∈ C := hperm.mem_iff.mp ht
    have htm := List.mem_dedup.mp htC
    obtain ⟨t0, ht0, rfl⟩ := List.mem_map.mp htm
    obtain ⟨q1, q2, q3⟩ := parse_elements_props s t0 ht0
    exact correct_tok_props t0 q1 q2 q3
  have hnd : out.Nodup := hperm.nodup_iff.mpr (List.nodup_dedup _)
  have hsorted : List.Sorted (· ≤ ·) out := List.sorted_insertionSort _ C
  by_cases hnil : out = []
  · rw [hnil]
    rfl
  · have hsplit : parse_elements (joinComma out) = out := by
      unfold parse_elements
      rw [splitComma_joinComma out hnil (fun t ht => (hprops t ht).2.2.1)]
      have hmapstrip : out.map pstrip = out := by
        have hmi : out.map pstrip = out.map id :=
          List.map_congr_left (fun a ha => (hprops a ha).2.1)
        rw [hmi, List.map_id]
      rw [hmapstrip]
      have hfil : out.filter (fun t => !t.isEmpty) = out :=
        List.filter_eq_self.mpr (fun a ha => by simpa using (hprops a ha).1)
      rw [hfil]
      exact List.dedup_eq_self.mpr hnd
    rw [hsplit]
    have hmapct : out.map correct_tok = out := by
      have hmi : out.map correct_tok = out.map id :=
        List.map_congr_left (fun a ha => (hprops a ha).2.2.2)
      rw [hmi, List.map_id]
    rw [hmapct, List.dedup_eq_self.mpr hnd, List.Sorted.insertionSort_eq hsorted]

theorem correct_field_cases (p : PyDict) (f : PStr) (p' : PyDict)
    (h : correct_field p f = .ok p') :
    (truthy (dictGet p f) = false ∧ p' = p)
    ∨ (∃ s, dictGet p f = PyVal.str s ∧ s ≠ []
        ∧ p' = dictSet p f (.str (correct_element_case s))) := by
  unfold correct_field at h
  by_cases ht : truthy (dictGet p f) = true
  · rw [if_pos ht] at h
    right
    cases hv : dictGet p f with
    | str s =>
        rw [hv] at h
        have hok : Except.ok (dictSet p f (PyVal.str (correct_element_case s))) = .ok p' := h
        refine ⟨s, rfl, ?_, ?_⟩
        · intro hnil
          rw [hv, hnil] at ht
          exact absurd ht (by simp [truthy])
        · cases hok
          rfl
    | none =>
        rw [hv] at h
        exact absurd h (by simp [asPyStr, Bind.bind, Except.bind])
    | bool b =>
        rw [hv] at h
        exact absurd h (by simp [asPyStr, Bind.bind, Except.bind])
    | int n =>
        rw [hv] at h
        exact absurd h (by simp [asPyStr, Bind.bind, Except.bind])
    | float q =>
        rw [hv] at h
        exact absurd h (by simp [asPyStr, Bind.bind, Except.bind])
    | list l =>
        rw [hv] at h
        exact absurd h (by simp [asPyStr, Bind.bind, Except.bind])
    | dict d =>
        rw [hv] at h
        exact absurd h (by simp [asPyStr, Bind.bind, Except.bind])
  · rw [if_neg ht] at h
    left
    have : p' = p := by cases h; rfl
    exact ⟨Bool.eq_false_iff.mpr ht, this⟩

theorem correct_field_second (p p1 q : PyDict) (f : PStr)
    (hcf : correct_field p f = .ok p1) (hget : dictGet q f = dictGet p1 f) :
    correct_field q f = .ok q := by
  rcases correct_field_cases p f p1 hcf with ⟨ht, rfl⟩ | ⟨s, hs, hsne, rfl⟩
  · unfold correct_field
    rw [hget, ht]
    rfl
  · have hq : dictGet q f = PyVal.str (correct_element_case s) := by
      rw [hget]
      exact dictGet_dictSet_self p f _
    unfold correct_field
    rw [hq]
    by_cases hemp : (correct_element_case s).isEmpty = true
    · rw [show truthy (PyVal.str (correct_element_case s)) = false by
        simp [truthy, hemp]]
      rfl
    · rw [show truthy (PyVal.str (correct_element_case s)) = true by
        simp [truthy, hemp]]
      have hk : hasKey q f = true :=
        hasKey_of_dictGet_ne_none q f (by rw [hq]; simp)
      show Except.ok (dictSet q f (.str (correct_element_case (correct_element_case s))))
          = .ok q
      rw [cec_idem s, dictSet_same q f _ hk hq]

theorem apply_corrections_fix (p q : PyDict) (h : apply_corrections p = .ok q) :
    apply_corrections q = .ok q := by
  unfold apply_corrections at h ⊢
  cases h1 : correct_field p (pstr "el_inc") with
  | error e =>
      rw [h1] at h
      exact absurd h (by simp [Bind.bind, Except.bind])
  | ok p1 =>
      rw [h1, except_bind_ok] at h
      have hgetinc : dictGet q (pstr "el_inc") = dictGet p1 (pstr "el_inc") := by
        rcases correct_field_cases p1 (pstr "el_exc") q h with ⟨_, rfl⟩ | ⟨s, hs, _, rfl⟩
        · rfl
        · exact dictGet_dictSet_ne p1 (pstr "el_inc") (pstr "el_exc") _ (by decide)
      have hq1 : correct_field q (pstr "el_inc") = .ok q :=
        correct_field_second p p1 q _ h1 hgetinc
      have hq2 : correct_field q (pstr "el_exc") = .ok q :=
        correct_field_second p1 q q _ h rfl
      rw [hq1, except_bind_ok, hq2]

/-! ## C7 -/

/-- C7: for every parameter dict, applying the correction step
(`apply_corrections`) twice yields exactly the same result as applying it
once — on success the corrected dict is a fixed point of the correction
(case-correction, deduplication and sorting of the element fields are
idempotent, and a field that became empty or was skipped stays unchanged),
and a raised exception propagates identically. -/
theorem C7_apply_corrections_idempotent (p : PyDict) :
    (apply_corrections p).bind apply_corrections = apply_corrections p := by
  cases hp : apply_corrections p with
  | error e => rfl
  | ok q =>
      show apply_corrections q = Except.ok q
      exact apply_corrections_fix p q hp
